import Mathlib

/-!
# multi-gitter: the fleet run and the `run` command

A shallow embedding of

* `internal/multigitter/run.go` (`Runner.Run`, `Runner.runSingleRepo`), and
* `cmd/run.go` (`run`: token resolution, commit-message / PR-title / PR-body
  defaulting, construction of the runner).

Everything outside these two files (the `domain` package, `git.Git`, the
operating system, the script, the code host) is external.  External calls are
oracles: functions of the current `World` (the set of existing directories and
the history of events so far), so an oracle may answer differently on every
call.  Every external call the code makes is recorded, with its result, in the
world's event history; properties of the code are stated over that history.

The definitions come first, the theorems after them.
-/

namespace MultiGitter

/-! ## Data model of `internal/domain` -/

/-- Modelled from the spec: `domain.Repository` (package `internal/domain` is not
part of the sources).  The code only uses `GetURL()` and `GetBranch()`; the spec
gives a repository a clone URL and a base branch name. -/
structure Repository where
  URL : String
  Branch : String

/-- The method `repo.GetURL()`. -/
def Repository.GetURL (repo : Repository) : String := repo.URL

/-- The method `repo.GetBranch()`. -/
def Repository.GetBranch (repo : Repository) : String := repo.Branch

/-- Modelled from the spec: `domain.NewPullRequest`, the change request draft.
The field names are those of the composite literal in `Runner.Run`. -/
structure NewPullRequest where
  Title : String
  Body : String
  Head : String
  Base : String
  Reviewers : List String

/-- Modelled from the spec: the values of Go's `error` interface that the code
distinguishes.  `ExitCodeError` and `NoChangeError` are the two sentinels of
package `domain` (compared by identity in `Runner.Run`), `ExitError` is a value
of dynamic type `*exec.ExitError` (the script ran and exited non-zero), `Other`
is any other error.  The Go `nil` error is `none : Option Error`. -/
inductive Error where
  | ExitCodeError
  | NoChangeError
  | ExitError (code : Nat)
  | Other (msg : String)

/-- Modelled from the spec: the struct `git.Git` (package `internal/git` is not
part of the sources), with the three fields `runSingleRepo` sets: the
destination directory, the remote URL and the name of the new branch. -/
structure Git where
  Directory : String
  Repo : String
  NewBranch : String

/-! ## The world: directories and event history -/

/-- One external call made by the code, with its arguments and its result.
`returned` records the value `runSingleRepo` hands back to its caller. -/
inductive Event where
  | getRepositories (result : Except Error (List Repository))
  | logCloning (url : String)
  | logExitCode (url : String)
  | logNoChange (url : String)
  | tempDir (dir pattern : String) (result : Except Error String)
  | clone (g : Git) (result : Option Error)
  | script (path dir : String) (result : Option Error)
  | commit (g : Git) (message : String) (result : Option Error)
  | removeAll (path : String) (result : Option Error)
  | returned (url : String) (result : Option Error)
  | createPullRequest (repo : Repository) (newPR : NewPullRequest) (result : Option Error)

/-- The state of everything outside the program: the set of existing
directories (as a list of paths) and the events so far, oldest first. -/
structure World where
  dirs : List String
  trace : List Event

/-- Append one event to the history. -/
def World.emit (w : World) (e : Event) : World :=
  { w with trace := w.trace ++ [e] }

/-- The world before anything has happened, with the given directories. -/
def World.start (fs : List String) : World := { dirs := fs, trace := [] }

/-- The events of `w2` that were not yet in the history of the earlier world `w1`. -/
def World.eventsSince (w1 w2 : World) : List Event := w2.trace.drop w1.trace.length

/-- Whether `p` is `path` itself or lies beneath it. -/
def under (path p : String) : Bool :=
  decide (p = path) || (path.data ++ ['/']).isPrefixOf p.data

/-- The operating system, `git.Git` and the script, as `runSingleRepo` uses them;
none of them is part of the sources, so each is a parameter.  `TempDir` is
`ioutil.TempDir`, `osTempDir` the value of `os.TempDir()`.  `Clone`, `cmdRun`
(the `cmd.Run()` of the script) and `Commit` return their error together with
the set of directories they leave behind, which may be any set.  `osRemoveAll`
is the answer of `os.RemoveAll(path)`: `none` when the removal succeeds, and
when it fails the error together with the set of directories the failed
removal leaves behind, which may be any set. -/
structure System where
  osTempDir : String
  TempDir : World → String → String → Except Error String
  Clone : World → Git → Option Error × List String
  cmdRun : World → String → String → Option Error × List String
  Commit : World → Git → String → Option Error × List String
  osRemoveAll : World → String → Option (Error × List String)

/-- The call `os.RemoveAll(path)` with its result dropped, as in
`defer os.RemoveAll(tmpDir)`.  When the call succeeds, `path` and everything
beneath it is gone; when it fails, what is left is the system's answer. -/
def RemoveAll (sys : System) (path : String) (w : World) : World :=
  match sys.osRemoveAll w path with
  | none =>
    { dirs := w.dirs.filter (fun p => !under path p),
      trace := w.trace ++ [Event.removeAll path none] }
  | some (err, left) =>
    { dirs := left, trace := w.trace ++ [Event.removeAll path (some err)] }

namespace multigitter

/-! ## `internal/multigitter/run.go` -/

/-- The struct `Runner` of `internal/multigitter/run.go`; the two interface
fields are their single methods, `GetRepositories` and `CreatePullRequest`.
Both are calls to the code host: they may depend on everything that happened
before and leave the local directories alone. -/
structure Runner where
  ScriptPath : String
  FeatureBranch : String
  RepoGetter : World → Except Error (List Repository)
  PullRequestCreator : World → Repository → NewPullRequest → Option Error
  CommitMessage : String
  PullRequestTitle : String
  PullRequestBody : String
  Reviewers : List String

/-- Lines 82-129 of `runSingleRepo`: what runs between the registration of the
deferred `os.RemoveAll(tmpDir)` and the return.  (The goroutine that copies the
script's output to the log only logs and is left out.) -/
def runSingleRepo.body (sys : System) (r : Runner) (url tmpDir : String) (w : World) :
    Option Error × World :=
  let sourceController : Git :=
    { Directory := tmpDir, Repo := url, NewBranch := r.FeatureBranch }
  match sys.Clone w sourceController with
  | (some err, dirs1) =>
    (some err, { dirs := dirs1, trace := w.trace ++ [Event.clone sourceController (some err)] })
  | (none, dirs1) =>
    let w1 : World := { dirs := dirs1, trace := w.trace ++ [Event.clone sourceController none] }
    match sys.cmdRun w1 r.ScriptPath tmpDir with
    | (some err, dirs2) =>
      let w2 : World :=
        { dirs := dirs2, trace := w1.trace ++ [Event.script r.ScriptPath tmpDir (some err)] }
      match err with
      | Error.ExitError _ => (some Error.ExitCodeError, w2)
      | _ => (some err, w2)
    | (none, dirs2) =>
      let w2 : World :=
        { dirs := dirs2, trace := w1.trace ++ [Event.script r.ScriptPath tmpDir none] }
      match sys.Commit w2 sourceController r.CommitMessage with
      | (some err, dirs3) =>
        (some err,
          { dirs := dirs3,
            trace := w2.trace ++ [Event.commit sourceController r.CommitMessage (some err)] })
      | (none, dirs3) =>
        (none,
          { dirs := dirs3,
            trace := w2.trace ++ [Event.commit sourceController r.CommitMessage none] })

/-- The method `Runner.runSingleRepo(url)`. -/
def runSingleRepo (sys : System) (r : Runner) (url : String) (w : World) :
    Option Error × World :=
  match sys.TempDir w sys.osTempDir "multi-git-changer-" with
  | Except.error err =>
    (some err,
      (w.emit (Event.tempDir sys.osTempDir "multi-git-changer-" (Except.error err))).emit
        (Event.returned url (some err)))
  | Except.ok tmpDir =>
    let w1 : World :=
      { dirs := tmpDir :: w.dirs,
        trace := w.trace ++ [Event.tempDir sys.osTempDir "multi-git-changer-" (Except.ok tmpDir)] }
    let res := runSingleRepo.body sys r url tmpDir w1
    -- defer os.RemoveAll(tmpDir)
    (res.1, (RemoveAll sys tmpDir res.2).emit (Event.returned url res.1))

/-- The `for _, repo := range repos` loop of `Runner.Run`. -/
def Run.loop (sys : System) (r : Runner) : List Repository → World → Option Error × World
  | [], w => (none, w)
  | repo :: rest, w =>
    let res := runSingleRepo sys r repo.GetURL (w.emit (Event.logCloning repo.GetURL))
    match res.1 with
    | some Error.ExitCodeError => Run.loop sys r rest (res.2.emit (Event.logExitCode repo.GetURL))
    | some Error.NoChangeError => Run.loop sys r rest (res.2.emit (Event.logNoChange repo.GetURL))
    | some err => (some err, res.2)
    | none =>
      let newPR : NewPullRequest :=
        { Title := r.PullRequestTitle,
          Body := r.PullRequestBody,
          Head := r.FeatureBranch,
          Base := repo.GetBranch,
          Reviewers := r.Reviewers }
      match r.PullRequestCreator res.2 repo newPR with
      | some err => (some err, res.2.emit (Event.createPullRequest repo newPR (some err)))
      | none => Run.loop sys r rest (res.2.emit (Event.createPullRequest repo newPR none))

/-- The method `Runner.Run()`. -/
def Run (sys : System) (r : Runner) (w : World) : Option Error × World :=
  match r.RepoGetter w with
  | Except.error err => (some err, w.emit (Event.getRepositories (Except.error err)))
  | Except.ok repos => Run.loop sys r repos (w.emit (Event.getRepositories (Except.ok repos)))

/-! ## Observations on an event history -/

/-- The value each pipeline invocation returned, oldest first: the URL it was
invoked on and the result of `runSingleRepo`. -/
def pipelineResults (t : List Event) : List (String × Option Error) :=
  t.filterMap fun
    | Event.returned url res => some (url, res)
    | _ => none

/-- The calls of `CreatePullRequest`, oldest first: the repository and the draft. -/
def submissions (t : List Event) : List (Repository × NewPullRequest) :=
  t.filterMap fun
    | Event.createPullRequest repo newPR _ => some (repo, newPR)
    | _ => none

/-- The error of a fatal event: a pipeline result other than `nil`,
`ExitCodeError` and `NoChangeError`, or a failed PR submission. -/
def fatal : Event → Option Error
  | Event.returned _ (some Error.ExitCodeError) => none
  | Event.returned _ (some Error.NoChangeError) => none
  | Event.returned _ (some err) => some err
  | Event.createPullRequest _ _ (some err) => some err
  | _ => none

/-- The error of the first fatal event of a history, if there is one. -/
def firstFatal : List Event → Option Error
  | [] => none
  | ev :: t =>
    match fatal ev with
    | some err => some err
    | none => firstFatal t

/-- The events that follow the first fatal event of a history. -/
def afterFirstFatal : List Event → List Event
  | [] => []
  | ev :: t =>
    match fatal ev with
    | some _ => t
    | none => afterFirstFatal t

/-- Whether an event is the log line `Cloning and running script on: ...`,
with which every iteration of the loop of `Runner.Run` begins. -/
def isStart : Event → Bool
  | Event.logCloning _ => true
  | _ => false

/-- A history cut into the iterations of the loop of `Runner.Run`: the first
piece holds the events before the first iteration, every further piece is one
iteration, from its `Cloning and running script on` line up to the next. -/
def iterations : List Event → List (List Event)
  | [] => [[]]
  | ev :: t =>
    match iterations t with
    | [] => [[ev]]
    | s :: ss => if isStart ev then [] :: (ev :: s) :: ss else (ev :: s) :: ss

/-! ## The shape of the histories the code produces -/

/-- The events of one call of `runSingleRepo` on `url`, with the value it returns. -/
inductive PipeSeg (r : Runner) (url : String) : List Event → Option Error → Prop where
  | tempDirFailed (dir pat : String) (e : Error) :
    PipeSeg r url
      [Event.tempDir dir pat (Except.error e), Event.returned url (some e)] (some e)
  | cloneFailed (dir pat d : String) (e : Error) (x : Option Error) :
    PipeSeg r url
      [Event.tempDir dir pat (Except.ok d),
       Event.clone { Directory := d, Repo := url, NewBranch := r.FeatureBranch } (some e),
       Event.removeAll d x, Event.returned url (some e)] (some e)
  | scriptExit (dir pat d : String) (code : Nat) (x : Option Error) :
    PipeSeg r url
      [Event.tempDir dir pat (Except.ok d),
       Event.clone { Directory := d, Repo := url, NewBranch := r.FeatureBranch } none,
       Event.script r.ScriptPath d (some (Error.ExitError code)),
       Event.removeAll d x, Event.returned url (some Error.ExitCodeError)]
      (some Error.ExitCodeError)
  | scriptFailed (dir pat d : String) (e : Error) (x : Option Error)
      (hne : ∀ code, e ≠ Error.ExitError code) :
    PipeSeg r url
      [Event.tempDir dir pat (Except.ok d),
       Event.clone { Directory := d, Repo := url, NewBranch := r.FeatureBranch } none,
       Event.script r.ScriptPath d (some e),
       Event.removeAll d x, Event.returned url (some e)] (some e)
  | committed (dir pat d : String) (res x : Option Error) :
    PipeSeg r url
      [Event.tempDir dir pat (Except.ok d),
       Event.clone { Directory := d, Repo := url, NewBranch := r.FeatureBranch } none,
       Event.script r.ScriptPath d none,
       Event.commit { Directory := d, Repo := url, NewBranch := r.FeatureBranch }
         r.CommitMessage res,
       Event.removeAll d x, Event.returned url res] res

/-- The pull request draft `Runner.Run` builds for `repo`. -/
def draft (r : Runner) (repo : Repository) : NewPullRequest :=
  { Title := r.PullRequestTitle,
    Body := r.PullRequestBody,
    Head := r.FeatureBranch,
    Base := repo.GetBranch,
    Reviewers := r.Reviewers }

/-- The events of the loop of `Runner.Run` over a list of repositories, with
the value the loop returns. -/
inductive LoopTrace (r : Runner) : List Repository → List Event → Option Error → Prop where
  | done : LoopTrace r [] [] none
  | exitCode (repo : Repository) (rest : List Repository) (seg t : List Event)
      (res : Option Error) (hseg : PipeSeg r repo.GetURL seg (some Error.ExitCodeError))
      (hrest : LoopTrace r rest t res) :
    LoopTrace r (repo :: rest)
      (Event.logCloning repo.GetURL :: seg ++ Event.logExitCode repo.GetURL :: t) res
  | noChange (repo : Repository) (rest : List Repository) (seg t : List Event)
      (res : Option Error) (hseg : PipeSeg r repo.GetURL seg (some Error.NoChangeError))
      (hrest : LoopTrace r rest t res) :
    LoopTrace r (repo :: rest)
      (Event.logCloning repo.GetURL :: seg ++ Event.logNoChange repo.GetURL :: t) res
  | abort (repo : Repository) (rest : List Repository) (seg : List Event) (e : Error)
      (hseg : PipeSeg r repo.GetURL seg (some e))
      (h1 : e ≠ Error.ExitCodeError) (h2 : e ≠ Error.NoChangeError) :
    LoopTrace r (repo :: rest) (Event.logCloning repo.GetURL :: seg) (some e)
  | submitFailed (repo : Repository) (rest : List Repository) (seg : List Event) (e : Error)
      (hseg : PipeSeg r repo.GetURL seg none) :
    LoopTrace r (repo :: rest)
      (Event.logCloning repo.GetURL :: seg ++
        [Event.createPullRequest repo (draft r repo) (some e)]) (some e)
  | submitted (repo : Repository) (rest : List Repository) (seg t : List Event)
      (res : Option Error) (hseg : PipeSeg r repo.GetURL seg none)
      (hrest : LoopTrace r rest t res) :
    LoopTrace r (repo :: rest)
      (Event.logCloning repo.GetURL :: seg ++
        Event.createPullRequest repo (draft r repo) none :: t) res

/-- The repositories among `repos` whose pipeline result, read off in order
from `results`, is `nil` (Committed), each with the draft built for it. -/
def committedDrafts (r : Runner) (repos : List Repository)
    (results : List (String × Option Error)) : List (Repository × NewPullRequest) :=
  ((repos.zip (results.map Prod.snd)).filter (fun p => p.2.isNone)).map
    (fun p => (p.1, draft r p.1))

/-- The shape of one iteration of the loop: the start line, the events of the
pipeline, and what `Run` does with the result. -/
def IterShape (r : Runner) (it : List Event) : Prop :=
  ∃ url seg res tail, it = Event.logCloning url :: (seg ++ tail) ∧ PipeSeg r url seg res ∧
    (∀ g m c, Event.commit g m c ∉ tail) ∧
    (∀ g x, Event.clone g x ∉ tail) ∧
    (∀ p d x, Event.script p d x ∉ tail) ∧
    (∀ dir pat x, Event.tempDir dir pat x ∉ tail) ∧
    (res ≠ none → ∀ repo pr x, Event.createPullRequest repo pr x ∉ tail)

/-! ## Working-copy cleanup: assumption and invariant -/

/-- The external tools create directories only inside the working copy they
are given: whatever `Clone`, the script and `Commit` leave behind either
existed before or lies in (or is) their working directory. -/
def Confined (sys : System) : Prop :=
  (∀ w g, ∀ p ∈ (sys.Clone w g).2, p ∈ w.dirs ∨ under g.Directory p = true) ∧
  (∀ w path dir, ∀ p ∈ (sys.cmdRun w path dir).2, p ∈ w.dirs ∨ under dir p = true) ∧
  (∀ w g m, ∀ p ∈ (sys.Commit w g m).2, p ∈ w.dirs ∨ under g.Directory p = true)

/-- Whether an event is an `os.RemoveAll` call that returned an error. -/
def removalFailed : Event → Bool
  | Event.removeAll _ (some _) => true
  | _ => false

/-- Every `os.RemoveAll` call of a history succeeded. -/
def RemovalsSucceed (t : List Event) : Prop :=
  ∀ ev ∈ t, removalFailed ev = false

/-- No working copy created so far exists. -/
def Clean (w : World) : Prop :=
  ∀ dir pat d, Event.tempDir dir pat (Except.ok d) ∈ w.trace → d ∉ w.dirs

/-! ## Example systems and runs -/

/-- An example system: the working copy is always `/tmp/wc`, clone and commit
succeed, and the script exits with code 1 exactly when one pipeline run has
completed before (that is, on the second repository). -/
def exSystem : System :=
  { osTempDir := "/tmp",
    TempDir := fun _ _ _ => Except.ok "/tmp/wc",
    Clone := fun w _ => (none, w.dirs),
    cmdRun := fun w _ _ =>
      match pipelineResults w.trace with
      | [_] => (some (Error.ExitError 1), w.dirs)
      | _ => (none, w.dirs),
    Commit := fun w _ _ => (none, w.dirs),
    osRemoveAll := fun _ _ => none }

/-- Three example repositories. -/
def exRepos : List Repository :=
  [{ URL := "a", Branch := "main" }, { URL := "b", Branch := "master" },
   { URL := "c", Branch := "dev" }]

/-- An example runner over `exRepos` whose PR sink accepts everything. -/
def exRunner : Runner :=
  { ScriptPath := "/s", FeatureBranch := "feature",
    RepoGetter := fun _ => Except.ok exRepos,
    PullRequestCreator := fun _ _ _ => none,
    CommitMessage := "msg", PullRequestTitle := "title", PullRequestBody := "body",
    Reviewers := ["r1"] }

/-- An example system in which the clone of the second repository fails: the
working copy is always `/tmp/wc`, the script and the commit succeed, and `Clone`
fails with a network error exactly when one pipeline run has completed before. -/
def exCloneFails : System :=
  { osTempDir := "/tmp",
    TempDir := fun _ _ _ => Except.ok "/tmp/wc",
    Clone := fun w _ =>
      match pipelineResults w.trace with
      | [_] => (some (Error.Other "unreachable"), w.dirs)
      | _ => (none, w.dirs),
    cmdRun := fun w _ _ => (none, w.dirs),
    Commit := fun w _ _ => (none, w.dirs),
    osRemoveAll := fun _ _ => none }

/-- An example runner whose repository source fails. -/
def exNoSource : Runner :=
  { exRunner with RepoGetter := fun _ => Except.error (Error.Other "api down") }

/-- An example system in which the script leaves the tree unchanged: clone and
script succeed (the script even creates a directory in the working copy) and
`Commit` signals that there is nothing to commit. -/
def exNoChange : System :=
  { osTempDir := "/tmp",
    TempDir := fun _ _ _ => Except.ok "/tmp/wc",
    Clone := fun w g => (none, (g.Directory ++ "/" ++ ".git") :: w.dirs),
    cmdRun := fun w _ dir => (none, (dir ++ "/" ++ "out") :: w.dirs),
    Commit := fun w _ _ => (some Error.NoChangeError, w.dirs),
    osRemoveAll := fun _ _ => none }

/-- An example system in which the removal of the working copy fails: the
script exits with code 1 and `os.RemoveAll` returns an error and removes
nothing. -/
def exRemoveFails : System :=
  { osTempDir := "/tmp",
    TempDir := fun _ _ _ => Except.ok "/tmp/wc",
    Clone := fun w _ => (none, w.dirs),
    cmdRun := fun w _ _ => (some (Error.ExitError 1), w.dirs),
    Commit := fun w _ _ => (none, w.dirs),
    osRemoveAll := fun w _ => some (Error.Other "permission denied", w.dirs) }

/-- An example system in which every removal succeeds and a later script
creates the path of an earlier working copy again: the first working copy is
`/tmp/wc1`, the later ones are `/tmp/wc2`, and the script of the second
repository creates the directory `/tmp/wc1`. -/
def exRecreate : System :=
  { osTempDir := "/tmp",
    TempDir := fun w _ _ =>
      match pipelineResults w.trace with
      | [] => Except.ok "/tmp/wc1"
      | _ => Except.ok "/tmp/wc2",
    Clone := fun w _ => (none, w.dirs),
    cmdRun := fun w _ _ =>
      match pipelineResults w.trace with
      | [_] => (none, "/tmp/wc1" :: w.dirs)
      | _ => (none, w.dirs),
    Commit := fun w _ _ => (none, w.dirs),
    osRemoveAll := fun _ _ => none }

/-- The second iteration of the example run of `exSystem` over `exRepos`, in
which the script exits with code 1. -/
def exFailedIteration : List Event :=
  [Event.logCloning "b",
   Event.tempDir "/tmp" "multi-git-changer-" (Except.ok "/tmp/wc"),
   Event.clone { Directory := "/tmp/wc", Repo := "b", NewBranch := "feature" } none,
   Event.script "/s" "/tmp/wc" (some (Error.ExitError 1)),
   Event.removeAll "/tmp/wc" none,
   Event.returned "b" (some Error.ExitCodeError),
   Event.logExitCode "b"]

end multigitter

/-! ## The `run` command (`cmd/run.go`) -/

namespace strings

/-- The part of `s` before the first `sep` and the part after it, when `sep`
occurs in `s`. -/
def cut (sep : Char) : List Char → Option (List Char × List Char)
  | [] => none
  | c :: cs =>
    if c = sep then some ([], cs)
    else
      match cut sep cs with
      | none => none
      | some (a, b) => some (c :: a, b)

/-- The call `strings.SplitN(s, sep, n)` of Go's standard library for a
separator of one character and `n ≥ 0`: at most `n` pieces, the last one the
unsplit remainder. -/
def SplitN : List Char → Char → Nat → List (List Char)
  | _, _, 0 => []
  | s, _, 1 => [s]
  | s, sep, n + 2 =>
    match cut sep s with
    | none => [s]
    | some (a, b) => a :: SplitN b sep (n + 1)

end strings

namespace cmd

/-- The values `run` reads from the command line: the flags and the first
positional argument. -/
structure Flags where
  ghBaseUrl : String
  token : String
  branch : String
  org : String
  prTitle : String
  prBody : String
  commitMessage : String
  reviewers : List String
  maxReviewers : Int
  arg0 : String

/-- What `run` uses from outside the file: the environment variable
`GITHUB_TOKEN` (empty when unset), `os.Getwd()`, `github.New(token, baseUrl)`
and `path.Join`.  `VC` is the type of the client `github.New` returns. -/
structure Env (VC : Type) where
  GITHUB_TOKEN : String
  Getwd : Except Error String
  githubNew : String → String → Except Error VC
  pathJoin : String → String → String

/-- The composite literal `multigitter.Runner{...}` that `run` builds. -/
structure Runner (VC : Type) where
  ScriptPath : String
  FeatureBranch : String
  VersionController : VC
  OrgName : String
  CommitMessage : String
  PullRequestTitle : String
  PullRequestBody : String
  Reviewers : List String
  MaxReviewers : Int

/-- How `run` ends: `exit` is `fmt.Println(msg); cmd.Usage(); os.Exit(status)`,
`panicked` a run-time panic, `fatal` a `log.Fatalln`, and `runs` the call of
`runner.Run` on the runner built (whose error, if any, is then logged). -/
inductive Outcome (VC : Type) where
  | exit (status : Nat) (msg : String)
  | panicked (msg : String)
  | fatal (logged : String)
  | runs (runner : Runner VC)

/-- Lines 86-115 of `run`: working directory, client, runner. -/
def launch {VC : Type} (env : Env VC) (flag : Flags)
    (token commitMessage prTitle prBody : String) : Outcome VC :=
  match env.Getwd with
  | Except.error _ => Outcome.fatal ""
  | Except.ok workingDir =>
    match env.githubNew token flag.ghBaseUrl with
    | Except.error _ => Outcome.fatal workingDir
    | Except.ok vc =>
      Outcome.runs
        { ScriptPath := env.pathJoin workingDir flag.arg0,
          FeatureBranch := flag.branch,
          VersionController := vc,
          OrgName := flag.org,
          CommitMessage := commitMessage,
          PullRequestTitle := prTitle,
          PullRequestBody := prBody,
          Reviewers := flag.reviewers,
          MaxReviewers := flag.maxReviewers }

/-- The function `run` of `cmd/run.go`. -/
def run {VC : Type} (env : Env VC) (flag : Flags) : Outcome VC :=
  let token :=
    if flag.token ≠ "" then
      if env.GITHUB_TOKEN ≠ "" then env.GITHUB_TOKEN else flag.token
    else flag.token
  if token = "" then
    Outcome.exit 1
      "Either the --token flag or the GITHUB_TOKEN environment variable has to be set."
  else if flag.org = "" then
    Outcome.exit 1 "No organisation set."
  else if flag.commitMessage = "" ∧ flag.prTitle = "" then
    Outcome.exit 1 "Pull request title or commit message must be set."
  else if flag.commitMessage = "" then
    let commitMessage :=
      if flag.prBody ≠ "" then flag.prTitle ++ ("\n" ++ flag.prBody) else flag.prTitle
    launch env flag token commitMessage flag.prTitle flag.prBody
  else if flag.prTitle = "" then
    let split := strings.SplitN flag.commitMessage.data '\n' 2
    match split.get? 0 with
    | none => Outcome.panicked "index out of range [0]"
    | some first =>
      if flag.prBody = "" ∧ split.length = 2 then
        match split.get? 2 with
        | none => Outcome.panicked "index out of range [2] with length 2"
        | some rest => launch env flag token flag.commitMessage (String.mk first) (String.mk rest)
      else
        launch env flag token flag.commitMessage (String.mk first) flag.prBody
  else
    launch env flag token flag.commitMessage flag.prTitle flag.prBody

/-- An example environment: no `GITHUB_TOKEN`, working directory `/work`, and a
client that is the pair of token and base URL. -/
def exEnv : Env (String × String) :=
  { GITHUB_TOKEN := "",
    Getwd := Except.ok "/work",
    githubNew := fun token url => Except.ok (token, url),
    pathJoin := fun a b => a ++ "/" ++ b }

/-- Example flags: token and organisation set, nothing else. -/
def exFlags : Flags :=
  { ghBaseUrl := "", token := "t0", branch := "multi-gitter-branch", org := "acme",
    prTitle := "", prBody := "", commitMessage := "", reviewers := [], maxReviewers := 0,
    arg0 := "fix.sh" }

/-- An example environment in which `GITHUB_TOKEN` is set. -/
def exEnvToken : Env (String × String) :=
  { exEnv with GITHUB_TOKEN := "abc" }

end cmd

/-! # Theorems -/

namespace multigitter

/-! ## Lemmas: the code produces histories of that shape -/

theorem RemoveAll_trace (sys : System) (path : String) (w : World) :
    ∃ x, (RemoveAll sys path w).trace = w.trace ++ [Event.removeAll path x] := by
  unfold RemoveAll
  split
  · exact ⟨none, rfl⟩
  · rename_i err left _
    exact ⟨some err, rfl⟩

theorem body_trace (sys : System) (r : Runner) (url tmpDir dir pat : String) (w : World)
    (w0 : List Event) (x : Option Error)
    (hw : w.trace = w0 ++ [Event.tempDir dir pat (Except.ok tmpDir)]) :
    ∃ seg, (runSingleRepo.body sys r url tmpDir w).2.trace ++ [Event.removeAll tmpDir x]
        = w0 ++ seg ∧
      PipeSeg r url (seg ++ [Event.returned url (runSingleRepo.body sys r url tmpDir w).1])
        (runSingleRepo.body sys r url tmpDir w).1 := by
  unfold runSingleRepo.body
  simp only [hw]
  split
  · exact ⟨_, by simp; rfl, PipeSeg.cloneFailed dir pat tmpDir _ x⟩
  · split
    · rename_i err _ _
      cases err with
      | ExitError c => exact ⟨_, by simp; rfl, PipeSeg.scriptExit dir pat tmpDir c x⟩
      | ExitCodeError =>
        exact ⟨_, by simp; rfl,
          PipeSeg.scriptFailed dir pat tmpDir Error.ExitCodeError x (by intro c h; cases h)⟩
      | NoChangeError =>
        exact ⟨_, by simp; rfl,
          PipeSeg.scriptFailed dir pat tmpDir Error.NoChangeError x (by intro c h; cases h)⟩
      | Other m =>
        exact ⟨_, by simp; rfl,
          PipeSeg.scriptFailed dir pat tmpDir (Error.Other m) x (by intro c h; cases h)⟩
    · split
      · exact ⟨_, by simp; rfl, PipeSeg.committed dir pat tmpDir _ x⟩
      · exact ⟨_, by simp; rfl, PipeSeg.committed dir pat tmpDir _ x⟩

theorem runSingleRepo_trace (sys : System) (r : Runner) (url : String) (w : World) :
    ∃ seg, (runSingleRepo sys r url w).2.trace = w.trace ++ seg ∧
      PipeSeg r url seg (runSingleRepo sys r url w).1 := by
  unfold runSingleRepo
  split
  · rename_i err _
    refine ⟨_, ?_, PipeSeg.tempDirFailed sys.osTempDir "multi-git-changer-" err⟩
    simp [World.emit]
  · rename_i tmpDir _
    obtain ⟨x, hx⟩ := RemoveAll_trace sys tmpDir
      (runSingleRepo.body sys r url tmpDir
        { dirs := tmpDir :: w.dirs,
          trace := w.trace ++
            [Event.tempDir sys.osTempDir "multi-git-changer-" (Except.ok tmpDir)] }).2
    obtain ⟨seg, h1, h2⟩ := body_trace sys r url tmpDir sys.osTempDir "multi-git-changer-"
      { dirs := tmpDir :: w.dirs,
        trace := w.trace ++
          [Event.tempDir sys.osTempDir "multi-git-changer-" (Except.ok tmpDir)] }
      w.trace x rfl
    refine ⟨seg ++ [Event.returned url _], ?_, h2⟩
    simp only [World.emit, hx, h1, List.append_assoc]

theorem loop_trace (sys : System) (r : Runner) (repos : List Repository) :
    ∀ w : World, ∃ t, (Run.loop sys r repos w).2.trace = w.trace ++ t ∧
      LoopTrace r repos t (Run.loop sys r repos w).1 := by
  induction repos with
  | nil => intro w; exact ⟨[], by simp [Run.loop], LoopTrace.done⟩
  | cons repo rest ih =>
    intro w
    obtain ⟨seg, h1, h2⟩ :=
      runSingleRepo_trace sys r repo.GetURL (w.emit (Event.logCloning repo.GetURL))
    unfold Run.loop
    simp only
    generalize runSingleRepo sys r repo.GetURL (w.emit (Event.logCloning repo.GetURL)) = rs
      at h1 h2 ⊢
    split
    · rename_i heq
      rw [heq] at h2
      obtain ⟨t, h3, h4⟩ := ih (rs.2.emit (Event.logExitCode repo.GetURL))
      refine ⟨_, ?_, LoopTrace.exitCode repo rest seg t _ h2 h4⟩
      rw [h3]; simp [World.emit, h1]
    · rename_i heq
      rw [heq] at h2
      obtain ⟨t, h3, h4⟩ := ih (rs.2.emit (Event.logNoChange repo.GetURL))
      refine ⟨_, ?_, LoopTrace.noChange repo rest seg t _ h2 h4⟩
      rw [h3]; simp [World.emit, h1]
    · rename_i err hx1 hx2 heq
      rw [heq] at h2
      refine ⟨_, ?_, LoopTrace.abort repo rest seg err h2 ?_ ?_⟩
      · rw [h1]; simp [World.emit]
      · intro h; exact hx1 h
      · intro h; exact hx2 h
    · rename_i heq
      rw [heq] at h2
      split
      · rename_i err hpr
        refine ⟨_, ?_, LoopTrace.submitFailed repo rest seg err h2⟩
        simp [World.emit, h1, draft]
      · rename_i hpr
        obtain ⟨t, h3, h4⟩ := ih (rs.2.emit (Event.createPullRequest repo (draft r repo) none))
        refine ⟨_, ?_, LoopTrace.submitted repo rest seg t _ h2 h4⟩
        simp only [draft] at h3
        rw [h3]; simp [World.emit, h1, draft]

theorem Run_trace (sys : System) (r : Runner) (w : World) (repos : List Repository)
    (hrepos : r.RepoGetter w = Except.ok repos) :
    ∃ t, (Run sys r w).2.trace = w.trace ++ Event.getRepositories (Except.ok repos) :: t ∧
      LoopTrace r repos t (Run sys r w).1 := by
  unfold Run
  rw [hrepos]
  obtain ⟨t, h1, h2⟩ :=
    loop_trace sys r repos (w.emit (Event.getRepositories (Except.ok repos)))
  exact ⟨t, by rw [h1]; simp [World.emit], h2⟩

theorem eventsSince_of_append (w1 w2 : World) (seg : List Event)
    (h : w2.trace = w1.trace ++ seg) : w1.eventsSince w2 = seg := by
  simp [World.eventsSince, h]

/-! ## Lemmas: observations on histories of that shape -/

theorem pipelineResults_append (a b : List Event) :
    pipelineResults (a ++ b) = pipelineResults a ++ pipelineResults b := by
  simp [pipelineResults, List.filterMap_append]

theorem submissions_append (a b : List Event) :
    submissions (a ++ b) = submissions a ++ submissions b := by
  simp [submissions, List.filterMap_append]

theorem firstFatal_append (a b : List Event) :
    firstFatal (a ++ b) = (match firstFatal a with
      | some e => some e
      | none => firstFatal b) := by
  induction a with
  | nil => simp [firstFatal]
  | cons ev t ih =>
    simp only [List.cons_append, firstFatal]
    cases fatal ev <;> simp [ih]

theorem afterFirstFatal_append (a b : List Event) :
    afterFirstFatal (a ++ b) = (match firstFatal a with
      | some _ => afterFirstFatal a ++ b
      | none => afterFirstFatal b) := by
  induction a with
  | nil => simp [firstFatal, afterFirstFatal]
  | cons ev t ih =>
    simp only [List.cons_append, firstFatal, afterFirstFatal]
    cases fatal ev <;> simp [ih]

theorem PipeSeg.results {r : Runner} {url : String} {seg : List Event} {res : Option Error}
    (h : PipeSeg r url seg res) : pipelineResults seg = [(url, res)] := by
  cases h <;> simp [pipelineResults]

theorem PipeSeg.submissions {r : Runner} {url : String} {seg : List Event}
    {res : Option Error} (h : PipeSeg r url seg res) : submissions seg = [] := by
  cases h <;> simp [multigitter.submissions]

@[simp] theorem fatal_getRepositories (x : Except Error (List Repository)) : fatal (Event.getRepositories x) = none := rfl

@[simp] theorem fatal_logCloning (u : String) : fatal (Event.logCloning u) = none := rfl

@[simp] theorem fatal_logExitCode (u : String) : fatal (Event.logExitCode u) = none := rfl

@[simp] theorem fatal_logNoChange (u : String) : fatal (Event.logNoChange u) = none := rfl

@[simp] theorem fatal_tempDir (a b : String) (x : Except Error String) : fatal (Event.tempDir a b x) = none := rfl

@[simp] theorem fatal_clone (g : Git) (x : Option Error) : fatal (Event.clone g x) = none := rfl

@[simp] theorem fatal_script (a b : String) (x : Option Error) : fatal (Event.script a b x) = none := rfl

@[simp] theorem fatal_commit (g : Git) (m : String) (x : Option Error) : fatal (Event.commit g m x) = none := rfl

@[simp] theorem fatal_removeAll (a : String) (x : Option Error) :
    fatal (Event.removeAll a x) = none := rfl

@[simp] theorem fatal_createPullRequest_none (repo : Repository) (pr : NewPullRequest) :
    fatal (Event.createPullRequest repo pr none) = none := rfl

@[simp] theorem fatal_createPullRequest_some (repo : Repository) (pr : NewPullRequest)
    (e : Error) : fatal (Event.createPullRequest repo pr (some e)) = some e := rfl

@[simp] theorem fatal_returned_none (url : String) :
    fatal (Event.returned url none) = none := rfl

@[simp] theorem fatal_returned_exitCode (url : String) :
    fatal (Event.returned url (some Error.ExitCodeError)) = none := rfl

@[simp] theorem fatal_returned_noChange (url : String) :
    fatal (Event.returned url (some Error.NoChangeError)) = none := rfl

theorem fatal_returned_other (url : String) (e : Error) (h1 : e ≠ Error.ExitCodeError)
    (h2 : e ≠ Error.NoChangeError) : fatal (Event.returned url (some e)) = some e := by
  cases e <;> first | rfl | exact absurd rfl h1 | exact absurd rfl h2

theorem firstFatal_singleton (ev : Event) : firstFatal [ev] = fatal ev := by
  simp only [firstFatal]
  cases fatal ev <;> rfl

theorem afterFirstFatal_singleton (ev : Event) : afterFirstFatal [ev] = [] := by
  simp only [afterFirstFatal]
  cases fatal ev <;> rfl

@[simp] theorem firstFatal_nil : firstFatal [] = none := rfl

@[simp] theorem afterFirstFatal_nil : afterFirstFatal [] = [] := rfl

theorem firstFatal_cons_quiet (ev : Event) (t : List Event) (h : fatal ev = none) :
    firstFatal (ev :: t) = firstFatal t := by
  simp [firstFatal, h]

theorem afterFirstFatal_cons_quiet (ev : Event) (t : List Event) (h : fatal ev = none) :
    afterFirstFatal (ev :: t) = afterFirstFatal t := by
  simp [afterFirstFatal, h]

theorem PipeSeg.firstFatal {r : Runner} {url : String} {seg : List Event}
    {res : Option Error} (h : PipeSeg r url seg res) :
    firstFatal seg = fatal (Event.returned url res) := by
  cases h <;> simp [firstFatal_cons_quiet, firstFatal_singleton]

theorem PipeSeg.afterFirstFatal {r : Runner} {url : String} {seg : List Event}
    {res : Option Error} (h : PipeSeg r url seg res) : afterFirstFatal seg = [] := by
  cases h <;> simp [afterFirstFatal_cons_quiet, afterFirstFatal_singleton]

theorem LoopTrace.result {r : Runner} {repos : List Repository} {t : List Event}
    {res : Option Error} (h : LoopTrace r repos t res) :
    res = firstFatal t ∧ afterFirstFatal t = [] := by
  induction h with
  | done => exact ⟨rfl, rfl⟩
  | exitCode repo rest seg t res hseg hrest ih =>
    simp [firstFatal_cons_quiet, afterFirstFatal_cons_quiet, firstFatal_append,
      afterFirstFatal_append, hseg.firstFatal, ih.1.symm, ih.2]
  | noChange repo rest seg t res hseg hrest ih =>
    simp [firstFatal_cons_quiet, afterFirstFatal_cons_quiet, firstFatal_append,
      afterFirstFatal_append, hseg.firstFatal, ih.1.symm, ih.2]
  | abort repo rest seg e hseg h1 h2 =>
    simp [firstFatal_cons_quiet, afterFirstFatal_cons_quiet, hseg.firstFatal,
      hseg.afterFirstFatal, fatal_returned_other _ _ h1 h2]
  | submitFailed repo rest seg e hseg =>
    simp [firstFatal_cons_quiet, afterFirstFatal_cons_quiet, firstFatal_append,
      afterFirstFatal_append, hseg.firstFatal, firstFatal_singleton, afterFirstFatal_singleton]
  | submitted repo rest seg t res hseg hrest ih =>
    simp [firstFatal_cons_quiet, afterFirstFatal_cons_quiet, firstFatal_append,
      afterFirstFatal_append, hseg.firstFatal, ih.1.symm, ih.2]

theorem LoopTrace.invoked {r : Runner} {repos : List Repository} {t : List Event}
    {res : Option Error} (h : LoopTrace r repos t res) :
    (pipelineResults t).map Prod.fst
        = (repos.take (pipelineResults t).length).map Repository.GetURL ∧
      (pipelineResults t).length ≤ repos.length ∧
      (res = none → (pipelineResults t).length = repos.length) := by
  induction h with
  | done => simp [pipelineResults]
  | exitCode repo rest seg t res hseg hrest ih =>
    have hcons : ∀ u, pipelineResults (Event.logExitCode u :: t) = pipelineResults t :=
      fun _ => rfl
    have hcons2 : ∀ u l, pipelineResults (Event.logCloning u :: l) = pipelineResults l :=
      fun _ _ => rfl
    simp only [hcons2, pipelineResults_append, hseg.results, hcons]
    simpa using ih
  | noChange repo rest seg t res hseg hrest ih =>
    have hcons : ∀ u, pipelineResults (Event.logNoChange u :: t) = pipelineResults t :=
      fun _ => rfl
    have hcons2 : ∀ u l, pipelineResults (Event.logCloning u :: l) = pipelineResults l :=
      fun _ _ => rfl
    simp only [hcons2, pipelineResults_append, hseg.results, hcons]
    simpa using ih
  | abort repo rest seg e hseg h1 h2 =>
    have hcons2 : ∀ u l, pipelineResults (Event.logCloning u :: l) = pipelineResults l :=
      fun _ _ => rfl
    simp [hcons2, hseg.results]
  | submitFailed repo rest seg e hseg =>
    have hcons2 : ∀ u l, pipelineResults (Event.logCloning u :: l) = pipelineResults l :=
      fun _ _ => rfl
    have hpr : ∀ a b c, pipelineResults [Event.createPullRequest a b c] = [] :=
      fun _ _ _ => rfl
    simp [hcons2, pipelineResults_append, hseg.results, hpr]
  | submitted repo rest seg t res hseg hrest ih =>
    have hcons2 : ∀ u l, pipelineResults (Event.logCloning u :: l) = pipelineResults l :=
      fun _ _ => rfl
    have hpr : ∀ a b c, pipelineResults (Event.createPullRequest a b c :: t)
        = pipelineResults t := fun _ _ _ => rfl
    simp only [hcons2, pipelineResults_append, hseg.results, hpr]
    simpa using ih

theorem LoopTrace.fatal_split {r : Runner} {repos : List Repository} {t : List Event}
    {res : Option Error} (h : LoopTrace r repos t res) (e : Error) (he : res = some e) :
    ∃ pre repo post earlier last,
      repos = pre ++ repo :: post ∧
      pipelineResults t = earlier ++ [(repo.GetURL, last)] ∧
      earlier.map Prod.fst = pre.map Repository.GetURL ∧
      ((submissions t).map Prod.fst).Sublist (pre ++ [repo]) ∧
      ((last = some e ∧ e ≠ Error.ExitCodeError ∧ e ≠ Error.NoChangeError) ∨
       (last = none ∧
        ∃ t0, t = t0 ++ [Event.createPullRequest repo (draft r repo) (some e)])) := by
  have hc2 : ∀ u l, pipelineResults (Event.logCloning u :: l) = pipelineResults l :=
    fun _ _ => rfl
  have hs2 : ∀ u l, submissions (Event.logCloning u :: l) = submissions l :=
    fun _ _ => rfl
  induction h with
  | done => cases he
  | exitCode repo rest seg t res hseg hrest ih =>
    obtain ⟨pre, repo1, post, earlier, last, h1, h2, h3, h4, h5⟩ := ih he
    have hc : pipelineResults (Event.logExitCode repo.GetURL :: t) = pipelineResults t := rfl
    have hs : submissions (Event.logExitCode repo.GetURL :: t) = submissions t := rfl
    refine ⟨repo :: pre, repo1, post, (repo.GetURL, some Error.ExitCodeError) :: earlier, last,
      by simp [h1], ?_, by simp [h3], ?_, ?_⟩
    · simp only [hc2, pipelineResults_append, hseg.results, hc, h2]; rfl
    · simp only [hs2, submissions_append, hseg.submissions, hs, List.nil_append]
      exact List.Sublist.cons _ h4
    · rcases h5 with h5 | ⟨h5, t0, h6⟩
      · exact Or.inl h5
      · exact Or.inr ⟨h5, Event.logCloning repo.GetURL :: (seg ++ Event.logExitCode repo.GetURL :: t0),
          by simp [h6]⟩
  | noChange repo rest seg t res hseg hrest ih =>
    obtain ⟨pre, repo1, post, earlier, last, h1, h2, h3, h4, h5⟩ := ih he
    have hc : pipelineResults (Event.logNoChange repo.GetURL :: t) = pipelineResults t := rfl
    have hs : submissions (Event.logNoChange repo.GetURL :: t) = submissions t := rfl
    refine ⟨repo :: pre, repo1, post, (repo.GetURL, some Error.NoChangeError) :: earlier, last,
      by simp [h1], ?_, by simp [h3], ?_, ?_⟩
    · simp only [hc2, pipelineResults_append, hseg.results, hc, h2]; rfl
    · simp only [hs2, submissions_append, hseg.submissions, hs, List.nil_append]
      exact List.Sublist.cons _ h4
    · rcases h5 with h5 | ⟨h5, t0, h6⟩
      · exact Or.inl h5
      · exact Or.inr ⟨h5, Event.logCloning repo.GetURL :: (seg ++ Event.logNoChange repo.GetURL :: t0),
          by simp [h6]⟩
  | abort repo rest seg e1 hseg h1 h2 =>
    cases he
    refine ⟨[], repo, rest, [], some e, rfl, ?_, rfl, ?_, Or.inl ⟨rfl, h1, h2⟩⟩
    · simp only [hc2, hseg.results]; rfl
    · simp [hs2, hseg.submissions]
  | submitFailed repo rest seg e1 hseg =>
    cases he
    have hc : ∀ a b c, pipelineResults [Event.createPullRequest a b c] = [] :=
      fun _ _ _ => rfl
    have hs : ∀ a b c, submissions [Event.createPullRequest a b c] = [(a, b)] :=
      fun _ _ _ => rfl
    refine ⟨[], repo, rest, [], none, rfl, ?_, rfl, ?_, Or.inr ⟨rfl, Event.logCloning repo.GetURL :: seg, rfl⟩⟩
    · simp only [hc2, pipelineResults_append, hseg.results, hc]; rfl
    · simp [hs2, submissions_append, hseg.submissions, hs]
  | submitted repo rest seg t res hseg hrest ih =>
    obtain ⟨pre, repo1, post, earlier, last, h1, h2, h3, h4, h5⟩ := ih he
    have hc : ∀ a b c, pipelineResults (Event.createPullRequest a b c :: t)
        = pipelineResults t := fun _ _ _ => rfl
    have hs : ∀ a b c, submissions (Event.createPullRequest a b c :: t)
        = (a, b) :: submissions t := fun _ _ _ => rfl
    refine ⟨repo :: pre, repo1, post, (repo.GetURL, none) :: earlier, last,
      by simp [h1], ?_, by simp [h3], ?_, ?_⟩
    · simp only [hc2, pipelineResults_append, hseg.results, hc, h2]; rfl
    · simp only [hs2, submissions_append, hseg.submissions, hs, List.nil_append,
        List.map_cons, List.cons_append]
      exact List.Sublist.cons₂ _ h4
    · rcases h5 with h5 | ⟨h5, t0, h6⟩
      · exact Or.inl h5
      · exact Or.inr ⟨h5, Event.logCloning repo.GetURL ::
          (seg ++ Event.createPullRequest repo (draft r repo) none :: t0),
          by simp [h6]⟩

theorem LoopTrace.submitted_eq {r : Runner} {repos : List Repository} {t : List Event}
    {res : Option Error} (h : LoopTrace r repos t res) :
    submissions t = committedDrafts r repos (pipelineResults t) := by
  have hc2 : ∀ u l, pipelineResults (Event.logCloning u :: l) = pipelineResults l :=
    fun _ _ => rfl
  have hs2 : ∀ u l, submissions (Event.logCloning u :: l) = submissions l :=
    fun _ _ => rfl
  induction h with
  | done => rfl
  | exitCode repo rest seg t res hseg hrest ih =>
    have hc : pipelineResults (Event.logExitCode repo.GetURL :: t) = pipelineResults t := rfl
    have hs : submissions (Event.logExitCode repo.GetURL :: t) = submissions t := rfl
    simp only [hc2, hs2, pipelineResults_append, submissions_append, hseg.results,
      hseg.submissions, hc, hs, ih]
    simp [committedDrafts]
  | noChange repo rest seg t res hseg hrest ih =>
    have hc : pipelineResults (Event.logNoChange repo.GetURL :: t) = pipelineResults t := rfl
    have hs : submissions (Event.logNoChange repo.GetURL :: t) = submissions t := rfl
    simp only [hc2, hs2, pipelineResults_append, submissions_append, hseg.results,
      hseg.submissions, hc, hs, ih]
    simp [committedDrafts]
  | abort repo rest seg e hseg h1 h2 =>
    simp only [hc2, hs2, hseg.results, hseg.submissions]
    simp [committedDrafts]
  | submitFailed repo rest seg e hseg =>
    have hc : ∀ a b c, pipelineResults [Event.createPullRequest a b c] = [] :=
      fun _ _ _ => rfl
    have hs : ∀ a b c, submissions [Event.createPullRequest a b c] = [(a, b)] :=
      fun _ _ _ => rfl
    simp only [hc2, hs2, pipelineResults_append, submissions_append, hseg.results,
      hseg.submissions, hc, hs]
    simp [committedDrafts]
  | submitted repo rest seg t res hseg hrest ih =>
    have hc : ∀ a b c, pipelineResults (Event.createPullRequest a b c :: t)
        = pipelineResults t := fun _ _ _ => rfl
    have hs : ∀ a b c, submissions (Event.createPullRequest a b c :: t)
        = (a, b) :: submissions t := fun _ _ _ => rfl
    simp only [hc2, hs2, pipelineResults_append, submissions_append, hseg.results,
      hseg.submissions, hc, hs, ih]
    simp [committedDrafts]

/-! ## The fleet run -/

/-- C1: when the repository source returns `repos` and the run has no fatal
event (no pipeline result other than nil / ExitCodeError / NoChangeError, no
failed PR submission), `Run` returns nil, the pipeline has been invoked on every
repository in input order, and the `CreatePullRequest` calls are exactly the
repositories whose pipeline result is nil (Committed), once each, in input
order, so a repository with result ExitCodeError or NoChangeError is never
submitted. -/
theorem Run_submits_exactly_committed (sys : System) (r : Runner) (fs : List String)
    (repos : List Repository)
    (hrepos : r.RepoGetter (World.start fs) = Except.ok repos)
    (hok : firstFatal (Run sys r (World.start fs)).2.trace = none) :
    (Run sys r (World.start fs)).1 = none ∧
    (pipelineResults (Run sys r (World.start fs)).2.trace).map Prod.fst
      = repos.map Repository.GetURL ∧
    submissions (Run sys r (World.start fs)).2.trace
      = ((repos.zip ((pipelineResults (Run sys r (World.start fs)).2.trace).map Prod.snd)).filter
          (fun p => p.2.isNone)).map
          (fun p => (p.1,
            { Title := r.PullRequestTitle, Body := r.PullRequestBody, Head := r.FeatureBranch,
              Base := p.1.GetBranch, Reviewers := r.Reviewers })) := by
  obtain ⟨t, ht, hloop⟩ := Run_trace sys r (World.start fs) repos hrepos
  have ht2 : (Run sys r (World.start fs)).2.trace
      = Event.getRepositories (Except.ok repos) :: t := by
    rw [ht]; rfl
  have hres : (Run sys r (World.start fs)).1 = none := by
    rw [hloop.result.1, ← hok, ht2,
      firstFatal_cons_quiet (Event.getRepositories (Except.ok repos)) t rfl]
  have hpr : pipelineResults (Event.getRepositories (Except.ok repos) :: t)
      = pipelineResults t := rfl
  have hsub : submissions (Event.getRepositories (Except.ok repos) :: t)
      = submissions t := rfl
  refine ⟨hres, ?_, ?_⟩
  · rw [ht2, hpr, hloop.invoked.1, hloop.invoked.2.2 hres, List.take_length]
  · rw [ht2, hpr, hsub, hloop.submitted_eq]
    rfl

/-- C1, the example of the specification: outcomes [Committed, ScriptFailed,
Committed] give exactly two submissions, for the first and the third
repository, in that order. -/
theorem Run_submits_exactly_committed_witness :
    (pipelineResults (Run exSystem exRunner (World.start [])).2.trace).map Prod.snd
      = [none, some Error.ExitCodeError, none] ∧
    (Run exSystem exRunner (World.start [])).1 = none ∧
    submissions (Run exSystem exRunner (World.start [])).2.trace
      = [({ URL := "a", Branch := "main" },
          { Title := "title", Body := "body", Head := "feature", Base := "main",
            Reviewers := ["r1"] }),
         ({ URL := "c", Branch := "dev" },
          { Title := "title", Body := "body", Head := "feature", Base := "dev",
            Reviewers := ["r1"] })] :=
  ⟨rfl,
   (Run_submits_exactly_committed exSystem exRunner [] exRepos rfl rfl).1,
   (Run_submits_exactly_committed exSystem exRunner [] exRepos rfl rfl).2.2.trans rfl⟩

/-- C2: when the repository source returns `repos` and the run has a fatal
event (a pipeline result other than nil / ExitCodeError / NoChangeError, or a
failed PR submission), the first of them with error `e`, then `Run` returns
exactly `e`, nothing at all happens after that event, and the list splits as
`pre ++ repo :: post` where the pipeline has been invoked exactly on
`pre ++ [repo]`, in order, PR submissions were made only for repositories of
`pre ++ [repo]`, and the fatal event belongs to `repo`: either its pipeline
returned `e`, or its pipeline returned nil and its PR submission, the last
event of the run, returned `e`. -/
theorem Run_aborts_at_first_fatal (sys : System) (r : Runner) (fs : List String)
    (repos : List Repository) (e : Error)
    (hrepos : r.RepoGetter (World.start fs) = Except.ok repos)
    (hfatal : firstFatal (Run sys r (World.start fs)).2.trace = some e) :
    (Run sys r (World.start fs)).1 = some e ∧
    afterFirstFatal (Run sys r (World.start fs)).2.trace = [] ∧
    ∃ pre repo post earlier last,
      repos = pre ++ repo :: post ∧
      pipelineResults (Run sys r (World.start fs)).2.trace
        = earlier ++ [(repo.GetURL, last)] ∧
      earlier.map Prod.fst = pre.map Repository.GetURL ∧
      ((submissions (Run sys r (World.start fs)).2.trace).map Prod.fst).Sublist
        (pre ++ [repo]) ∧
      ((last = some e ∧ e ≠ Error.ExitCodeError ∧ e ≠ Error.NoChangeError) ∨
       (last = none ∧
        ∃ t0, (Run sys r (World.start fs)).2.trace
          = t0 ++ [Event.createPullRequest repo
              { Title := r.PullRequestTitle, Body := r.PullRequestBody,
                Head := r.FeatureBranch, Base := repo.GetBranch,
                Reviewers := r.Reviewers } (some e)])) := by
  obtain ⟨t, ht, hloop⟩ := Run_trace sys r (World.start fs) repos hrepos
  have ht2 : (Run sys r (World.start fs)).2.trace
      = Event.getRepositories (Except.ok repos) :: t := by
    rw [ht]; rfl
  have hq : fatal (Event.getRepositories (Except.ok repos)) = none := rfl
  have hres : (Run sys r (World.start fs)).1 = some e := by
    rw [hloop.result.1, ← hfatal, ht2, firstFatal_cons_quiet _ t hq]
  obtain ⟨pre, repo, post, earlier, last, h1, h2, h3, h4, h5⟩ := hloop.fatal_split e hres
  refine ⟨hres, ?_, pre, repo, post, earlier, last, h1, ?_, h3, ?_, ?_⟩
  · rw [ht2, afterFirstFatal_cons_quiet _ t hq]; exact hloop.result.2
  · rw [ht2]; exact h2
  · rw [ht2]; exact h4
  · rcases h5 with h5 | ⟨h5, t0, h6⟩
    · exact Or.inl h5
    · refine Or.inr ⟨h5, Event.getRepositories (Except.ok repos) :: t0, ?_⟩
      rw [ht2, h6]; rfl

/-- C2 on an example: with three repositories and a clone that fails on the
second one, `Run` returns the clone error, the pipeline has run on the first two
repositories only, and the only submission is for the first. -/
theorem Run_aborts_at_first_fatal_witness :
    pipelineResults (Run exCloneFails exRunner (World.start [])).2.trace
      = [("a", none), ("b", some (Error.Other "unreachable"))] ∧
    (submissions (Run exCloneFails exRunner (World.start [])).2.trace).map
      (fun p => p.1.GetURL) = ["a"] ∧
    (Run exCloneFails exRunner (World.start [])).1 = some (Error.Other "unreachable") ∧
    afterFirstFatal (Run exCloneFails exRunner (World.start [])).2.trace = [] :=
  ⟨rfl, rfl,
   (Run_aborts_at_first_fatal exCloneFails exRunner [] exRepos (Error.Other "unreachable")
      rfl rfl).1,
   (Run_aborts_at_first_fatal exCloneFails exRunner [] exRepos (Error.Other "unreachable")
      rfl rfl).2.1⟩

/-- C3: every pull request draft `Run` hands to `CreatePullRequest` is handed
over together with a repository of the list the repository source returned, and
has the configured title, body and feature branch (as head), the base branch
of that same repository, and the configured reviewers, unchanged. -/
theorem Run_draft_fields (sys : System) (r : Runner) (fs : List String)
    (repos : List Repository)
    (hrepos : r.RepoGetter (World.start fs) = Except.ok repos) :
    ∀ p ∈ submissions (Run sys r (World.start fs)).2.trace,
      p.1 ∈ repos ∧
      p.2.Title = r.PullRequestTitle ∧
      p.2.Body = r.PullRequestBody ∧
      p.2.Head = r.FeatureBranch ∧
      p.2.Base = p.1.GetBranch ∧
      p.2.Reviewers = r.Reviewers := by
  obtain ⟨t, ht, hloop⟩ := Run_trace sys r (World.start fs) repos hrepos
  have ht2 : (Run sys r (World.start fs)).2.trace
      = Event.getRepositories (Except.ok repos) :: t := by
    rw [ht]; rfl
  have hsub : submissions (Event.getRepositories (Except.ok repos) :: t)
      = submissions t := rfl
  intro p hp
  rw [ht2, hsub, hloop.submitted_eq] at hp
  simp only [committedDrafts, List.mem_map, List.mem_filter] at hp
  obtain ⟨q, ⟨hq, _⟩, rfl⟩ := hp
  exact ⟨(List.of_mem_zip hq).1, rfl, rfl, rfl, rfl, rfl⟩

/-- C3 on the example run: the draft submitted for the third repository has
that repository's base branch `dev`. -/
theorem Run_draft_fields_witness :
    (({ URL := "c", Branch := "dev" } : Repository),
      ({ Title := "title", Body := "body", Head := "feature", Base := "dev",
         Reviewers := ["r1"] } : NewPullRequest))
      ∈ submissions (Run exSystem exRunner (World.start [])).2.trace ∧
    ({ URL := "c", Branch := "dev" } : Repository) ∈ exRepos :=
  ⟨List.mem_cons_of_mem _ (List.mem_cons_self _ _),
   (Run_draft_fields exSystem exRunner [] exRepos rfl _
      (List.mem_cons_of_mem _ (List.mem_cons_self _ _))).1⟩

/-- C7: when `GetRepositories` returns an error, `Run` returns that same
error, and the only event of the run is the `GetRepositories` call itself: no
working copy is created, nothing is cloned, run or committed, and
`CreatePullRequest` is never called; the directories are untouched. -/
theorem Run_source_failure (sys : System) (r : Runner) (w : World) (e : Error)
    (h : r.RepoGetter w = Except.error e) :
    (Run sys r w).1 = some e ∧
    w.eventsSince (Run sys r w).2 = [Event.getRepositories (Except.error e)] ∧
    (Run sys r w).2.dirs = w.dirs := by
  unfold Run
  rw [h]
  exact ⟨rfl, eventsSince_of_append _ _ _ rfl, rfl⟩

/-- C7 on an example: a failing repository source. -/
theorem Run_source_failure_witness :
    (Run exSystem exNoSource (World.start ["/home"])).1 = some (Error.Other "api down") ∧
    (Run exSystem exNoSource (World.start ["/home"])).2.trace
      = [Event.getRepositories (Except.error (Error.Other "api down"))] :=
  ⟨(Run_source_failure exSystem exNoSource (World.start ["/home"])
      (Error.Other "api down") rfl).1,
   (Run_source_failure exSystem exNoSource (World.start ["/home"])
      (Error.Other "api down") rfl).2.1⟩

/-! ## The pipeline of one repository -/

/-- C4: the result of `runSingleRepo` is decided by the first failing stage.
Among the events of the call: a failed creation of the working copy or a failed
`Clone` gives that error unchanged; a script that ends with an
`*exec.ExitError` gives the `ExitCodeError` sentinel; a script that fails with
any other error gives that error unchanged; and when `Commit` is reached the
result is exactly what `Commit` returns (nil, `NoChangeError`, or another
error).  One of these stages always decides: the call always returns. -/
theorem runSingleRepo_result (sys : System) (r : Runner) (url : String) (w : World) :
    (∀ dir pat e, Event.tempDir dir pat (Except.error e)
        ∈ w.eventsSince (runSingleRepo sys r url w).2 →
      (runSingleRepo sys r url w).1 = some e) ∧
    (∀ g e, Event.clone g (some e) ∈ w.eventsSince (runSingleRepo sys r url w).2 →
      (runSingleRepo sys r url w).1 = some e) ∧
    (∀ p d code, Event.script p d (some (Error.ExitError code))
        ∈ w.eventsSince (runSingleRepo sys r url w).2 →
      (runSingleRepo sys r url w).1 = some Error.ExitCodeError) ∧
    (∀ p d e, Event.script p d (some e) ∈ w.eventsSince (runSingleRepo sys r url w).2 →
      (∀ code, e ≠ Error.ExitError code) →
      (runSingleRepo sys r url w).1 = some e) ∧
    (∀ g m c, Event.commit g m c ∈ w.eventsSince (runSingleRepo sys r url w).2 →
      (runSingleRepo sys r url w).1 = c) ∧
    ((∃ dir pat e, Event.tempDir dir pat (Except.error e)
        ∈ w.eventsSince (runSingleRepo sys r url w).2) ∨
     (∃ g e, Event.clone g (some e) ∈ w.eventsSince (runSingleRepo sys r url w).2) ∨
     (∃ p d e, Event.script p d (some e) ∈ w.eventsSince (runSingleRepo sys r url w).2) ∨
     (∃ g m c, Event.commit g m c ∈ w.eventsSince (runSingleRepo sys r url w).2)) := by
  obtain ⟨seg, h1, h2⟩ := runSingleRepo_trace sys r url w
  rw [eventsSince_of_append _ _ _ h1]
  generalize (runSingleRepo sys r url w).1 = res at h2
  cases h2 with
  | tempDirFailed dir pat e =>
    refine ⟨?_, ?_, ?_, ?_, ?_, Or.inl ⟨dir, pat, e, by simp⟩⟩ <;> intros <;> simp_all
  | cloneFailed dir pat d e x =>
    refine ⟨?_, ?_, ?_, ?_, ?_, Or.inr (Or.inl
      ⟨{ Directory := d, Repo := url, NewBranch := r.FeatureBranch }, e, by simp⟩)⟩ <;> intros <;> simp_all
  | scriptExit dir pat d code x =>
    refine ⟨?_, ?_, ?_, ?_, ?_,
      Or.inr (Or.inr (Or.inl ⟨r.ScriptPath, d, Error.ExitError code, by simp⟩))⟩ <;> intros <;> simp_all
  | scriptFailed dir pat d e x hne =>
    refine ⟨?_, ?_, ?_, ?_, ?_, Or.inr (Or.inr (Or.inl ⟨r.ScriptPath, d, e, by simp⟩))⟩
    · intros; simp_all
    · intros; simp_all
    · intro p d1 code h
      simp only [List.mem_cons, List.mem_singleton, reduceCtorEq, Event.script.injEq,
        Option.some.injEq, false_or, or_false, List.not_mem_nil] at h
      exact absurd h.2.2.symm (hne code)
    · intros; simp_all
    · intros; simp_all
  | committed dir pat d x =>
    refine ⟨?_, ?_, ?_, ?_, ?_, Or.inr (Or.inr (Or.inr
      ⟨{ Directory := d, Repo := url, NewBranch := r.FeatureBranch }, r.CommitMessage, res, by simp⟩))⟩ <;>
      intros <;> simp_all

/-- C4 on an example: the script exits 0 and leaves the tree unchanged, `Commit`
signals that there is nothing to commit, and the pipeline returns
`NoChangeError`, not success. -/
theorem runSingleRepo_result_witness :
    (World.start []).eventsSince (runSingleRepo exNoChange exRunner "a" (World.start [])).2
      = [Event.tempDir "/tmp" "multi-git-changer-" (Except.ok "/tmp/wc"),
         Event.clone { Directory := "/tmp/wc", Repo := "a", NewBranch := "feature" } none,
         Event.script "/s" "/tmp/wc" none,
         Event.commit { Directory := "/tmp/wc", Repo := "a", NewBranch := "feature" } "msg"
           (some Error.NoChangeError),
         Event.removeAll "/tmp/wc" none,
         Event.returned "a" (some Error.NoChangeError)] ∧
    (runSingleRepo exNoChange exRunner "a" (World.start [])).1 = some Error.NoChangeError :=
  ⟨rfl,
   (runSingleRepo_result exNoChange exRunner "a" (World.start [])).2.2.2.2.1
     { Directory := "/tmp/wc", Repo := "a", NewBranch := "feature" } "msg"
     (some Error.NoChangeError)
     (List.mem_cons_of_mem _ (List.mem_cons_of_mem _ (List.mem_cons_of_mem _
       (List.mem_cons_self _ _))))⟩

/-! ## Working-copy cleanup -/

theorem under_self (d : String) : under d d = true := by
  simp [under]

theorem body_events (sys : System) (r : Runner) (url tmpDir : String) (w : World) :
    ∃ seg, (runSingleRepo.body sys r url tmpDir w).2.trace = w.trace ++ seg ∧
      (∀ dir pat x, Event.tempDir dir pat x ∉ seg) ∧
      (∀ p x, Event.removeAll p x ∉ seg) := by
  unfold runSingleRepo.body
  simp only
  split
  · exact ⟨[_], rfl, by simp, by simp⟩
  · split
    · split
      · exact ⟨[_] ++ [_], List.append_assoc _ _ _, by simp, by simp⟩
      · exact ⟨[_] ++ [_], List.append_assoc _ _ _, by simp, by simp⟩
    · split
      · exact ⟨_, (List.append_assoc _ _ _).trans (List.append_assoc _ _ _), by simp,
          by simp⟩
      · exact ⟨_, (List.append_assoc _ _ _).trans (List.append_assoc _ _ _), by simp,
          by simp⟩

theorem body_dirs (sys : System) (hc : Confined sys) (r : Runner) (url tmpDir : String)
    (w : World) :
    ∀ p ∈ (runSingleRepo.body sys r url tmpDir w).2.dirs,
      p ∈ w.dirs ∨ under tmpDir p = true := by
  obtain ⟨hclone, hrun, hcommit⟩ := hc
  unfold runSingleRepo.body
  simp only
  split
  · rename_i err dirs1 heq
    intro p hp
    have := hclone w { Directory := tmpDir, Repo := url, NewBranch := r.FeatureBranch } p
      (by rw [heq]; exact hp)
    exact this
  · rename_i dirs1 heq
    have h1 : ∀ p ∈ dirs1, p ∈ w.dirs ∨ under tmpDir p = true := fun p hp =>
      hclone w { Directory := tmpDir, Repo := url, NewBranch := r.FeatureBranch } p
        (by rw [heq]; exact hp)
    split
    · rename_i err dirs2 heq2
      have h2 : ∀ p ∈ dirs2, p ∈ w.dirs ∨ under tmpDir p = true := fun p hp => by
        rcases hrun _ r.ScriptPath tmpDir p (by rw [heq2]; exact hp) with h | h
        · exact h1 p h
        · exact Or.inr h
      split <;> exact h2
    · rename_i dirs2 heq2
      have h2 : ∀ p ∈ dirs2, p ∈ w.dirs ∨ under tmpDir p = true := fun p hp => by
        rcases hrun _ r.ScriptPath tmpDir p (by rw [heq2]; exact hp) with h | h
        · exact h1 p h
        · exact Or.inr h
      split
      · rename_i err dirs3 heq3
        intro p hp
        rcases hcommit _ _ r.CommitMessage p (by rw [heq3]; exact hp) with h | h
        · exact h2 p h
        · exact Or.inr h
      · rename_i dirs3 heq3
        intro p hp
        rcases hcommit _ _ r.CommitMessage p (by rw [heq3]; exact hp) with h | h
        · exact h2 p h
        · exact Or.inr h

theorem runSingleRepo_of_error (sys : System) (r : Runner) (url : String) (w : World)
    (err : Error) (hT : sys.TempDir w sys.osTempDir "multi-git-changer-" = Except.error err) :
    (runSingleRepo sys r url w).2.dirs = w.dirs ∧
    w.eventsSince (runSingleRepo sys r url w).2
      = [Event.tempDir sys.osTempDir "multi-git-changer-" (Except.error err),
         Event.returned url (some err)] := by
  unfold runSingleRepo
  rw [hT]
  exact ⟨rfl, by simp [World.eventsSince, World.emit]⟩

theorem runSingleRepo_of_ok (sys : System) (r : Runner)
    (url : String) (w : World) (tmpDir : String)
    (hT : sys.TempDir w sys.osTempDir "multi-git-changer-" = Except.ok tmpDir) :
    ∃ (seg : List Event) (x : Option Error) (bodyDirs : List String),
      w.eventsSince (runSingleRepo sys r url w).2
        = Event.tempDir sys.osTempDir "multi-git-changer-" (Except.ok tmpDir) ::
            (seg ++ [Event.removeAll tmpDir x,
              Event.returned url (runSingleRepo sys r url w).1]) ∧
      (∀ dir pat y, Event.tempDir dir pat y ∉ seg) ∧
      (∀ p y, Event.removeAll p y ∉ seg) ∧
      (x = none → (runSingleRepo sys r url w).2.dirs
        = bodyDirs.filter (fun p => !under tmpDir p)) ∧
      (Confined sys → ∀ p ∈ bodyDirs, p ∈ tmpDir :: w.dirs ∨ under tmpDir p = true) := by
  obtain ⟨seg, h1, h2, h3⟩ := body_events sys r url tmpDir
    { dirs := tmpDir :: w.dirs,
      trace := w.trace ++
        [Event.tempDir sys.osTempDir "multi-git-changer-" (Except.ok tmpDir)] }
  have hd := fun hconf : Confined sys => body_dirs sys hconf r url tmpDir
    { dirs := tmpDir :: w.dirs,
      trace := w.trace ++
        [Event.tempDir sys.osTempDir "multi-git-changer-" (Except.ok tmpDir)] }
  unfold runSingleRepo
  rw [hT]
  simp only
  generalize runSingleRepo.body sys r url tmpDir
    { dirs := tmpDir :: w.dirs,
      trace := w.trace ++
        [Event.tempDir sys.osTempDir "multi-git-changer-" (Except.ok tmpDir)] } = B
    at h1 hd ⊢
  cases hR : sys.osRemoveAll B.2 tmpDir with
  | none =>
    refine ⟨seg, none, B.2.dirs, ?_, h2, h3,
      (fun _ => by simp [RemoveAll, hR, World.emit]), hd⟩
    simp [World.eventsSince, World.emit, RemoveAll, hR, h1]
  | some a =>
    obtain ⟨err, left⟩ := a
    refine ⟨seg, some err, B.2.dirs, ?_, h2, h3, (fun h => by cases h), hd⟩
    simp [World.eventsSince, World.emit, RemoveAll, hR, h1]

theorem runSingleRepo_removes (sys : System) (r : Runner) (url : String) (w : World)
    (dir pat d : String)
    (h : Event.tempDir dir pat (Except.ok d) ∈ w.eventsSince (runSingleRepo sys r url w).2)
    (hr : Event.removeAll d none ∈ w.eventsSince (runSingleRepo sys r url w).2) :
    ∀ p ∈ (runSingleRepo sys r url w).2.dirs, under d p = false := by
  cases hT : sys.TempDir w sys.osTempDir "multi-git-changer-" with
  | error err =>
    rw [(runSingleRepo_of_error sys r url w err hT).2] at h
    simp at h
  | ok tmpDir =>
    obtain ⟨seg, x, bodyDirs, h1, h2, h3, h4, _⟩ :=
      runSingleRepo_of_ok sys r url w tmpDir hT
    rw [h1] at h hr
    simp only [List.mem_cons, List.mem_append, List.mem_singleton, Event.tempDir.injEq,
      Except.ok.injEq, reduceCtorEq, or_false, false_or, List.not_mem_nil,
      Event.removeAll.injEq] at h hr
    have hd : d = tmpDir := by
      rcases h with h | h
      · exact h.2.2
      · exact absurd h (h2 dir pat _)
    have hx : x = none := by
      rcases hr with hr | hr
      · exact absurd hr (h3 d none)
      · exact hr.2.symm
    intro p hp
    rw [h4 hx] at hp
    simp only [List.mem_filter, Bool.not_eq_eq_eq_not, Bool.not_true] at hp
    rw [hd]; exact hp.2

theorem runSingleRepo_attempts_removal (sys : System) (r : Runner) (url : String) (w : World)
    (dir pat d : String)
    (h : Event.tempDir dir pat (Except.ok d) ∈ w.eventsSince (runSingleRepo sys r url w).2) :
    ∃ x, [Event.tempDir dir pat (Except.ok d), Event.removeAll d x].Sublist
      (w.eventsSince (runSingleRepo sys r url w).2) := by
  cases hT : sys.TempDir w sys.osTempDir "multi-git-changer-" with
  | error err =>
    rw [(runSingleRepo_of_error sys r url w err hT).2] at h
    simp at h
  | ok tmpDir =>
    obtain ⟨seg, x, bodyDirs, h1, h2, _, _, _⟩ :=
      runSingleRepo_of_ok sys r url w tmpDir hT
    rw [h1] at h ⊢
    simp only [List.mem_cons, List.mem_append, List.mem_singleton, Event.tempDir.injEq,
      Except.ok.injEq, reduceCtorEq, or_false, false_or, List.not_mem_nil] at h
    rcases h with ⟨rfl, rfl, rfl⟩ | h
    · refine ⟨x, List.Sublist.cons₂ _ ?_⟩
      rw [List.singleton_sublist]
      simp
    · exact absurd h (h2 dir pat _)

theorem removalsSucceed_of_append (a b : List Event) (h : RemovalsSucceed (a ++ b)) :
    RemovalsSucceed a := fun ev hev => h ev (List.mem_append_left _ hev)

theorem runSingleRepo_dirs_subset (sys : System) (hc : Confined sys) (r : Runner)
    (url : String) (w : World)
    (hs : RemovalsSucceed (w.eventsSince (runSingleRepo sys r url w).2)) :
    ∀ p ∈ (runSingleRepo sys r url w).2.dirs, p ∈ w.dirs := by
  cases hT : sys.TempDir w sys.osTempDir "multi-git-changer-" with
  | error err =>
    rw [(runSingleRepo_of_error sys r url w err hT).1]
    exact fun p hp => hp
  | ok tmpDir =>
    obtain ⟨seg, x, bodyDirs, h1, _, _, h4, h5⟩ :=
      runSingleRepo_of_ok sys r url w tmpDir hT
    have hx : x = none := by
      cases x with
      | none => rfl
      | some e =>
        have := hs (Event.removeAll tmpDir (some e)) (by rw [h1]; simp)
        simp [removalFailed] at this
    intro p hp
    rw [h4 hx] at hp
    simp only [List.mem_filter, Bool.not_eq_eq_eq_not, Bool.not_true] at hp
    rcases h5 hc p hp.1 with h | h
    · rcases List.mem_cons.1 h with h | h
      · rw [h, under_self] at hp
        exact absurd hp.2 (by simp)
      · exact h
    · rw [h] at hp
      exact absurd hp.2 (by simp)

theorem runSingleRepo_clean (sys : System) (hc : Confined sys) (r : Runner) (url : String)
    (w : World) (hw : Clean w)
    (hs : RemovalsSucceed (runSingleRepo sys r url w).2.trace) :
    Clean (runSingleRepo sys r url w).2 := by
  obtain ⟨seg, h1, _⟩ := runSingleRepo_trace sys r url w
  have he := eventsSince_of_append _ _ _ h1
  have hs2 : RemovalsSucceed (w.eventsSince (runSingleRepo sys r url w).2) := by
    rw [he]
    intro ev hev
    exact hs ev (by rw [h1]; exact List.mem_append_right _ hev)
  intro dir pat d hmem
  rw [h1, List.mem_append] at hmem
  rcases hmem with hmem | hmem
  · exact fun hd => hw dir pat d hmem (runSingleRepo_dirs_subset sys hc r url w hs2 d hd)
  · have hm : Event.tempDir dir pat (Except.ok d)
        ∈ w.eventsSince (runSingleRepo sys r url w).2 := by rw [he]; exact hmem
    obtain ⟨x, hx⟩ := runSingleRepo_attempts_removal sys r url w dir pat d hm
    have hx2 : Event.removeAll d x ∈ w.eventsSince (runSingleRepo sys r url w).2 :=
      hx.subset (by simp)
    have hnone : x = none := by
      cases x with
      | none => rfl
      | some e =>
        have := hs2 _ hx2
        simp [removalFailed] at this
    rw [hnone] at hx2
    intro hd
    have := runSingleRepo_removes sys r url w dir pat d hm hx2 d hd
    rw [under_self] at this
    cases this

theorem clean_emit (w : World) (ev : Event) (hw : Clean w)
    (hev : ∀ dir pat d, ev ≠ Event.tempDir dir pat (Except.ok d)) : Clean (w.emit ev) := by
  intro dir pat d hmem
  simp only [World.emit, List.mem_append, List.mem_singleton] at hmem
  rcases hmem with hmem | hmem
  · exact hw dir pat d hmem
  · exact absurd hmem.symm (hev dir pat d)

theorem loop_clean (sys : System) (hc : Confined sys) (r : Runner)
    (repos : List Repository) :
    ∀ w : World, Clean w → RemovalsSucceed (Run.loop sys r repos w).2.trace →
      Clean (Run.loop sys r repos w).2 := by
  induction repos with
  | nil => intro w hw _; exact hw
  | cons repo rest ih =>
    intro w hw
    have h1 : RemovalsSucceed (runSingleRepo sys r repo.GetURL
          (w.emit (Event.logCloning repo.GetURL))).2.trace →
        Clean (runSingleRepo sys r repo.GetURL
          (w.emit (Event.logCloning repo.GetURL))).2 :=
      runSingleRepo_clean sys hc r _ _ (clean_emit w _ hw (by intro _ _ _ h; cases h))
    unfold Run.loop
    simp only
    generalize runSingleRepo sys r repo.GetURL (w.emit (Event.logCloning repo.GetURL)) = rs
      at h1 ⊢
    have hpre : ∀ ev : Event, RemovalsSucceed (Run.loop sys r rest (rs.2.emit ev)).2.trace →
        RemovalsSucceed rs.2.trace := by
      intro ev hs
      obtain ⟨t, ht, _⟩ := loop_trace sys r rest (rs.2.emit ev)
      rw [ht] at hs
      exact removalsSucceed_of_append _ _ (removalsSucceed_of_append _ _ hs)
    split
    · intro hs
      exact ih _ (clean_emit _ _ (h1 (hpre _ hs)) (by intro _ _ _ h; cases h)) hs
    · intro hs
      exact ih _ (clean_emit _ _ (h1 (hpre _ hs)) (by intro _ _ _ h; cases h)) hs
    · intro hs
      exact h1 hs
    · split
      · intro hs
        exact clean_emit _ _ (h1 (removalsSucceed_of_append _ _ hs))
          (by intro _ _ _ h; cases h)
      · intro hs
        exact ih _ (clean_emit _ _ (h1 (hpre _ hs)) (by intro _ _ _ h; cases h)) hs

theorem under_sub (d rest : String) : under d (d ++ "/" ++ rest) = true := by
  simp [under, String.data_append, List.isPrefixOf_iff_prefix]

theorem exNoChange_confined : Confined exNoChange := by
  refine ⟨?_, ?_, ?_⟩
  · intro w g p hp
    simp only [exNoChange, List.mem_cons] at hp
    rcases hp with hp | hp
    · right; rw [hp]; exact under_sub g.Directory ".git"
    · exact Or.inl hp
  · intro w path dir p hp
    simp only [exNoChange, List.mem_cons] at hp
    rcases hp with hp | hp
    · right; rw [hp]; exact under_sub dir "out"
    · exact Or.inl hp
  · intro w g m p hp
    exact Or.inl hp

/-! ## No commit and no submission after a failure -/

theorem iterations_append_quiet (a : List Event) (ha : ∀ ev ∈ a, isStart ev = false)
    (t h : List Event) (tl : List (List Event)) (ht : iterations t = h :: tl) :
    iterations (a ++ t) = (a ++ h) :: tl := by
  induction a with
  | nil => simpa using ht
  | cons ev a ih =>
    have h1 := ih (fun e he => ha e (List.mem_cons_of_mem _ he))
    have h2 : isStart ev = false := ha ev (List.mem_cons_self _ _)
    simp [iterations, h1, h2]

theorem iterations_start (u : String) (t h : List Event) (tl : List (List Event))
    (ht : iterations t = h :: tl) :
    iterations (Event.logCloning u :: t) = [] :: (Event.logCloning u :: h) :: tl := by
  simp [iterations, ht, isStart]

theorem PipeSeg.quiet {r : Runner} {url : String} {seg : List Event} {res : Option Error}
    (h : PipeSeg r url seg res) : ∀ ev ∈ seg, isStart ev = false := by
  cases h <;> simp [isStart]

theorem LoopTrace.iterations {r : Runner} {repos : List Repository} {t : List Event}
    {res : Option Error} (h : LoopTrace r repos t res) :
    ∃ gs, iterations t = [] :: gs ∧ ∀ g ∈ gs, IterShape r g := by
  induction h with
  | done => exact ⟨[], rfl, by simp⟩
  | exitCode repo rest seg t res hseg hrest ih =>
    obtain ⟨gs, h1, h2⟩ := ih
    have h3 := iterations_append_quiet (seg ++ [Event.logExitCode repo.GetURL])
      (by intro ev hev
          rcases List.mem_append.1 hev with h | h
          · exact hseg.quiet ev h
          · rw [List.mem_singleton.1 h]; rfl) t [] gs h1
    refine ⟨_, by
      have := iterations_start repo.GetURL _ _ _ h3
      simpa using this, ?_⟩
    intro g hg
    rcases List.mem_cons.1 hg with hg | hg
    · exact ⟨repo.GetURL, seg, _, [Event.logExitCode repo.GetURL], by simp [hg], hseg,
        by simp, by simp, by simp, by simp, by simp⟩
    · exact h2 g hg
  | noChange repo rest seg t res hseg hrest ih =>
    obtain ⟨gs, h1, h2⟩ := ih
    have h3 := iterations_append_quiet (seg ++ [Event.logNoChange repo.GetURL])
      (by intro ev hev
          rcases List.mem_append.1 hev with h | h
          · exact hseg.quiet ev h
          · rw [List.mem_singleton.1 h]; rfl) t [] gs h1
    refine ⟨_, by
      have := iterations_start repo.GetURL _ _ _ h3
      simpa using this, ?_⟩
    intro g hg
    rcases List.mem_cons.1 hg with hg | hg
    · exact ⟨repo.GetURL, seg, _, [Event.logNoChange repo.GetURL], by simp [hg], hseg,
        by simp, by simp, by simp, by simp, by simp⟩
    · exact h2 g hg
  | abort repo rest seg e hseg h1 h2 =>
    have h3 := iterations_append_quiet seg hseg.quiet [] [] [] rfl
    refine ⟨_, by
      have := iterations_start repo.GetURL _ _ _ h3
      simpa using this, ?_⟩
    intro g hg
    rw [List.mem_singleton.1 hg]
    exact ⟨repo.GetURL, seg, _, [], by simp, hseg, by simp, by simp, by simp, by simp, by simp⟩
  | submitFailed repo rest seg e hseg =>
    have h3 := iterations_append_quiet
      (seg ++ [Event.createPullRequest repo (draft r repo) (some e)])
      (by intro ev hev
          rcases List.mem_append.1 hev with h | h
          · exact hseg.quiet ev h
          · rw [List.mem_singleton.1 h]; rfl) [] [] [] rfl
    refine ⟨_, by
      have := iterations_start repo.GetURL _ _ _ h3
      simpa using this, ?_⟩
    intro g hg
    rw [List.mem_singleton.1 hg]
    exact ⟨repo.GetURL, seg, _, [Event.createPullRequest repo (draft r repo) (some e)],
      by simp, hseg, by simp, by simp, by simp, by simp, by simp⟩
  | submitted repo rest seg t res hseg hrest ih =>
    obtain ⟨gs, h1, h2⟩ := ih
    have h3 := iterations_append_quiet
      (seg ++ [Event.createPullRequest repo (draft r repo) none])
      (by intro ev hev
          rcases List.mem_append.1 hev with h | h
          · exact hseg.quiet ev h
          · rw [List.mem_singleton.1 h]; rfl) t [] gs h1
    refine ⟨_, by
      have := iterations_start repo.GetURL _ _ _ h3
      simpa using this, ?_⟩
    intro g hg
    rcases List.mem_cons.1 hg with hg | hg
    · exact ⟨repo.GetURL, seg, _, [Event.createPullRequest repo (draft r repo) none],
        by simp [hg], hseg, by simp, by simp, by simp, by simp, by simp⟩
    · exact h2 g hg

theorem PipeSeg.no_submission {r : Runner} {url : String} {seg : List Event}
    {res : Option Error} (h : PipeSeg r url seg res) :
    ∀ repo pr x, Event.createPullRequest repo pr x ∉ seg := by
  cases h <;> simp

theorem PipeSeg.failure {r : Runner} {url : String} {seg : List Event}
    {res : Option Error} (h : PipeSeg r url seg res)
    (hf : (∃ g e, Event.clone g (some e) ∈ seg) ∨ (∃ p d e, Event.script p d (some e) ∈ seg)) :
    (∀ g m c, Event.commit g m c ∉ seg) ∧ res ≠ none := by
  cases h <;> simp at hf ⊢

theorem PipeSeg.stages {r : Runner} {url : String} {seg : List Event}
    {res : Option Error} (h : PipeSeg r url seg res) :
    ((∃ g m c, Event.commit g m c ∈ seg) ↔
      ((∃ g, Event.clone g none ∈ seg) ∧ (∃ p d, Event.script p d none ∈ seg))) ∧
    ((∃ p d x, Event.script p d x ∈ seg) ↔ (∃ g, Event.clone g none ∈ seg)) := by
  cases h <;> simp

theorem IterShape.no_work {r : Runner} {it : List Event} (h : IterShape r it)
    (hf : (∃ g e, Event.clone g (some e) ∈ it) ∨ (∃ p d e, Event.script p d (some e) ∈ it)) :
    (∀ g m c, Event.commit g m c ∉ it) ∧
    (∀ repo pr x, Event.createPullRequest repo pr x ∉ it) := by
  obtain ⟨url, seg, res, tail, rfl, hseg, h1, h2, h3, _, h4⟩ := h
  have hf2 : (∃ g e, Event.clone g (some e) ∈ seg) ∨
      (∃ p d e, Event.script p d (some e) ∈ seg) := by
    rcases hf with ⟨g, e, hm⟩ | ⟨p, d, e, hm⟩
    · simp only [List.mem_cons, reduceCtorEq, false_or, List.mem_append] at hm
      rcases hm with hm | hm
      · exact Or.inl ⟨g, e, hm⟩
      · exact absurd hm (h2 g _)
    · simp only [List.mem_cons, reduceCtorEq, false_or, List.mem_append] at hm
      rcases hm with hm | hm
      · exact Or.inr ⟨p, d, e, hm⟩
      · exact absurd hm (h3 p d _)
  obtain ⟨h5, h6⟩ := hseg.failure hf2
  constructor
  · intro g m c hm
    simp only [List.mem_cons, reduceCtorEq, false_or, List.mem_append] at hm
    rcases hm with hm | hm
    · exact h5 g m c hm
    · exact h1 g m c hm
  · intro repo pr x hm
    simp only [List.mem_cons, reduceCtorEq, false_or, List.mem_append] at hm
    rcases hm with hm | hm
    · exact hseg.no_submission repo pr x hm
    · exact h4 h6 repo pr x hm

theorem Run_iterations (sys : System) (r : Runner) (fs : List String) :
    ∀ it ∈ iterations (Run sys r (World.start fs)).2.trace,
      (∃ x, it = [Event.getRepositories x]) ∨ IterShape r it := by
  intro it hit
  cases hget : r.RepoGetter (World.start fs) with
  | error e =>
    have ht : (Run sys r (World.start fs)).2.trace
        = [Event.getRepositories (Except.error e)] := by
      unfold Run; rw [hget]; rfl
    rw [ht] at hit
    simp only [iterations, isStart, Bool.false_eq_true, if_false, List.mem_singleton] at hit
    exact Or.inl ⟨_, hit⟩
  | ok repos =>
    obtain ⟨t, ht, hloop⟩ := Run_trace sys r (World.start fs) repos hget
    obtain ⟨gs, h1, h2⟩ := hloop.iterations
    have ht2 : iterations (Run sys r (World.start fs)).2.trace
        = [Event.getRepositories (Except.ok repos)] :: gs := by
      rw [ht]
      exact iterations_append_quiet [Event.getRepositories (Except.ok repos)]
        (by simp [isStart]) t [] gs h1
    rw [ht2] at hit
    rcases List.mem_cons.1 hit with hit | hit
    · exact Or.inl ⟨_, hit⟩
    · exact Or.inr (h2 it hit)

/-- C5: in `runSingleRepo` a commit is attempted exactly when the clone and
the script of that call both succeeded, and the script is launched exactly when
the clone succeeded; a call whose clone or script failed makes no commit and
does not return nil.  At the fleet level, an iteration of the loop of `Run`
(the events from one `Cloning and running script on` line to the next) in
which the clone or the script failed contains no commit and no call of
`CreatePullRequest`. -/
theorem commit_only_after_success (sys : System) (r : Runner) :
    (∀ (url : String) (w : World),
      ((∃ g m c, Event.commit g m c ∈ w.eventsSince (runSingleRepo sys r url w).2) ↔
        ((∃ g, Event.clone g none ∈ w.eventsSince (runSingleRepo sys r url w).2) ∧
         (∃ p d, Event.script p d none ∈ w.eventsSince (runSingleRepo sys r url w).2))) ∧
      ((∃ p d x, Event.script p d x ∈ w.eventsSince (runSingleRepo sys r url w).2) ↔
        (∃ g, Event.clone g none ∈ w.eventsSince (runSingleRepo sys r url w).2)) ∧
      (((∃ g e, Event.clone g (some e) ∈ w.eventsSince (runSingleRepo sys r url w).2) ∨
        (∃ p d e, Event.script p d (some e) ∈ w.eventsSince (runSingleRepo sys r url w).2)) →
        (∀ g m c, Event.commit g m c ∉ w.eventsSince (runSingleRepo sys r url w).2) ∧
        (runSingleRepo sys r url w).1 ≠ none)) ∧
    (∀ (fs : List String), ∀ it ∈ iterations (Run sys r (World.start fs)).2.trace,
      ((∃ g e, Event.clone g (some e) ∈ it) ∨ (∃ p d e, Event.script p d (some e) ∈ it)) →
        (∀ g m c, Event.commit g m c ∉ it) ∧
        (∀ repo pr x, Event.createPullRequest repo pr x ∉ it)) := by
  constructor
  · intro url w
    obtain ⟨seg, h1, h2⟩ := runSingleRepo_trace sys r url w
    rw [eventsSince_of_append _ _ _ h1]
    exact ⟨h2.stages.1, h2.stages.2, h2.failure⟩
  · intro fs it hit hf
    rcases Run_iterations sys r fs it hit with ⟨x, rfl⟩ | h
    · simp at hf
    · exact h.no_work hf

/-- C5 on examples.  In the run with outcomes [Committed, ScriptFailed,
Committed] the iteration of the second repository, whose script exits with
code 1, is an iteration of the run and contains no commit and no PR
submission; and a pipeline call whose clone fails (`exCloneFails`, started
after one earlier pipeline run) does not return nil. -/
theorem commit_only_after_success_witness :
    exFailedIteration ∈ iterations (Run exSystem exRunner (World.start [])).2.trace ∧
    ((∀ g m c, Event.commit g m c ∉ exFailedIteration) ∧
     (∀ repo pr x, Event.createPullRequest repo pr x ∉ exFailedIteration)) ∧
    (runSingleRepo exCloneFails exRunner "a"
      { dirs := [], trace := [Event.returned "z" none] }).1 ≠ none :=
  ⟨List.mem_cons_of_mem _ (List.mem_cons_of_mem _ (List.mem_cons_self _ _)),
   (commit_only_after_success exSystem exRunner).2 [] exFailedIteration
     (List.mem_cons_of_mem _ (List.mem_cons_of_mem _ (List.mem_cons_self _ _)))
     (Or.inr ⟨"/s", "/tmp/wc", Error.ExitError 1,
       List.mem_cons_of_mem _ (List.mem_cons_of_mem _ (List.mem_cons_of_mem _
         (List.mem_cons_self _ _)))⟩),
   ((commit_only_after_success exCloneFails exRunner).1 "a"
      { dirs := [], trace := [Event.returned "z" none] }).2.2
     (Or.inl ⟨{ Directory := "/tmp/wc", Repo := "a", NewBranch := "feature" },
       Error.Other "unreachable", List.mem_cons_of_mem _ (List.mem_cons_self _ _)⟩) |>.2⟩

/-! ## Every working copy is removed -/

theorem PipeSeg.removed_in_call {r : Runner} {url : String} {seg : List Event}
    {res : Option Error} (h : PipeSeg r url seg res) (dir pat d : String)
    (hm : Event.tempDir dir pat (Except.ok d) ∈ seg) :
    ∃ x, [Event.tempDir dir pat (Except.ok d), Event.removeAll d x].Sublist seg := by
  cases h with
  | tempDirFailed dir1 pat1 e => simp at hm
  | cloneFailed dir1 pat1 d1 e x =>
    simp only [List.mem_cons, Event.tempDir.injEq, Except.ok.injEq, reduceCtorEq, or_false,
      List.not_mem_nil] at hm
    obtain ⟨rfl, rfl, rfl⟩ := hm
    exact ⟨x, by simp⟩
  | scriptExit dir1 pat1 d1 code x =>
    simp only [List.mem_cons, Event.tempDir.injEq, Except.ok.injEq, reduceCtorEq, or_false,
      List.not_mem_nil] at hm
    obtain ⟨rfl, rfl, rfl⟩ := hm
    exact ⟨x, by simp⟩
  | scriptFailed dir1 pat1 d1 e x hne =>
    simp only [List.mem_cons, Event.tempDir.injEq, Except.ok.injEq, reduceCtorEq, or_false,
      List.not_mem_nil] at hm
    obtain ⟨rfl, rfl, rfl⟩ := hm
    exact ⟨x, by simp⟩
  | committed dir1 pat1 d1 res1 x =>
    simp only [List.mem_cons, Event.tempDir.injEq, Except.ok.injEq, reduceCtorEq, or_false,
      List.not_mem_nil] at hm
    obtain ⟨rfl, rfl, rfl⟩ := hm
    exact ⟨x, by simp⟩

theorem IterShape.removed_in_iteration {r : Runner} {it : List Event} (h : IterShape r it)
    (dir pat d : String) (hm : Event.tempDir dir pat (Except.ok d) ∈ it) :
    ∃ x, [Event.tempDir dir pat (Except.ok d), Event.removeAll d x].Sublist it := by
  obtain ⟨url, seg, res, tail, rfl, hseg, _, _, _, h4, _⟩ := h
  simp only [List.mem_cons, reduceCtorEq, false_or, List.mem_append] at hm
  rcases hm with hm | hm
  · obtain ⟨x, hx⟩ := hseg.removed_in_call dir pat d hm
    exact ⟨x, List.Sublist.cons _ (hx.trans (List.sublist_append_left seg tail))⟩
  · exact absurd hm (h4 dir pat _)

/-- C6, as the code has it.  With the filesystem modelled as the set of
existing directories: whatever the outcome of a call of `runSingleRepo`, the
working copy the call creates is passed to `os.RemoveAll` later in the same
call, and when that removal succeeds, the working copy is not in the set
when the call returns, and nothing beneath it is either.  During `Run`, every
working copy that is created is passed to `os.RemoveAll` later in the same
iteration of the loop.  When every removal of the run succeeds and the external
tools create directories only inside the working copy they are given, no
working copy created during the run is in the set when `Run` returns. -/
theorem working_copy_removed (sys : System) (r : Runner) :
    (∀ (url : String) (w : World) (dir pat d : String),
      Event.tempDir dir pat (Except.ok d) ∈ w.eventsSince (runSingleRepo sys r url w).2 →
      (∃ x, [Event.tempDir dir pat (Except.ok d), Event.removeAll d x].Sublist
        (w.eventsSince (runSingleRepo sys r url w).2)) ∧
      (Event.removeAll d none ∈ w.eventsSince (runSingleRepo sys r url w).2 →
        d ∉ (runSingleRepo sys r url w).2.dirs ∧
        ∀ p ∈ (runSingleRepo sys r url w).2.dirs, under d p = false)) ∧
    (∀ (fs : List String), ∀ it ∈ iterations (Run sys r (World.start fs)).2.trace,
      ∀ (dir pat d : String), Event.tempDir dir pat (Except.ok d) ∈ it →
      ∃ x, [Event.tempDir dir pat (Except.ok d), Event.removeAll d x].Sublist it) ∧
    (Confined sys → ∀ (fs : List String),
      RemovalsSucceed (Run sys r (World.start fs)).2.trace →
      ∀ (dir pat d : String),
      Event.tempDir dir pat (Except.ok d) ∈ (Run sys r (World.start fs)).2.trace →
      d ∉ (Run sys r (World.start fs)).2.dirs) := by
  refine ⟨fun url w dir pat d h =>
    ⟨runSingleRepo_attempts_removal sys r url w dir pat d h, fun hr => ⟨?_, ?_⟩⟩, ?_, ?_⟩
  · intro hd
    have := runSingleRepo_removes sys r url w dir pat d h hr d hd
    rw [under_self] at this
    cases this
  · exact runSingleRepo_removes sys r url w dir pat d h hr
  · intro fs it hit dir pat d hm
    rcases Run_iterations sys r fs it hit with ⟨x, rfl⟩ | h
    · simp at hm
    · exact h.removed_in_iteration dir pat d hm
  · intro hc fs hs dir pat d
    have hstart : Clean (World.start fs) := by
      intro _ _ _ h; simp [World.start] at h
    have hrun : Clean (Run sys r (World.start fs)).2 := by
      unfold Run at hs ⊢
      split
      · exact clean_emit _ _ hstart (by intro _ _ _ h; cases h)
      · rename_i repos heq
        rw [heq] at hs
        exact loop_clean sys hc r _ _
          (clean_emit _ _ hstart (by intro _ _ _ h; cases h)) hs
    exact hrun dir pat d

/-- C6 on an example run over three repositories in which the clone and the
script create directories inside the working copy `/tmp/wc` and every removal
succeeds: the working copy is created three times, and when `Run` returns only
the directory that existed before is left. -/
theorem working_copy_removed_witness :
    (Run exNoChange exRunner (World.start ["/home"])).2.dirs = ["/home"] ∧
    "/tmp/wc" ∉ (Run exNoChange exRunner (World.start ["/home"])).2.dirs ∧
    "/tmp/wc" ∉ (runSingleRepo exNoChange exRunner "a" (World.start ["/home"])).2.dirs :=
  ⟨rfl,
   (working_copy_removed exNoChange exRunner).2.2 exNoChange_confined ["/home"]
     (by unfold RemovalsSucceed; decide)
     "/tmp" "multi-git-changer-" "/tmp/wc"
     (List.mem_cons_of_mem _ (List.mem_cons_of_mem _ (List.mem_cons_self _ _))),
   (((working_copy_removed exNoChange exRunner).1 "a" (World.start ["/home"])
     "/tmp" "multi-git-changer-" "/tmp/wc" (List.mem_cons_self _ _)).2
     (List.mem_cons_of_mem _ (List.mem_cons_of_mem _ (List.mem_cons_of_mem _
       (List.mem_cons_of_mem _ (List.mem_cons_self _ _)))))).1⟩

/-- C6 as stated does not hold of the code.  First, `os.RemoveAll` can fail
and `runSingleRepo` drops its error: in `exRemoveFails` the script exits with
code 1, the call returns `ExitCodeError`, and the working copy `/tmp/wc` the
call created is still in the set when it returns, and after `Run` too.
Second, also when every removal succeeds: in `exRecreate` the script of the
second repository creates the path of the first working copy again, and
`/tmp/wc1`, a working copy created during the run, is in the set when `Run`
returns. -/
theorem working_copy_removed_counterexample :
    (Event.tempDir "/tmp" "multi-git-changer-" (Except.ok "/tmp/wc")
        ∈ (World.start []).eventsSince
            (runSingleRepo exRemoveFails exRunner "a" (World.start [])).2 ∧
      (runSingleRepo exRemoveFails exRunner "a" (World.start [])).1
        = some Error.ExitCodeError ∧
      "/tmp/wc" ∈ (runSingleRepo exRemoveFails exRunner "a" (World.start [])).2.dirs ∧
      "/tmp/wc" ∈ (Run exRemoveFails exRunner (World.start [])).2.dirs) ∧
    (RemovalsSucceed (Run exRecreate exRunner (World.start [])).2.trace ∧
      Event.tempDir "/tmp" "multi-git-changer-" (Except.ok "/tmp/wc1")
        ∈ (Run exRecreate exRunner (World.start [])).2.trace ∧
      (Run exRecreate exRunner (World.start [])).2.dirs = ["/tmp/wc1"] ∧
      "/tmp/wc1" ∈ (Run exRecreate exRunner (World.start [])).2.dirs) :=
  ⟨⟨List.mem_cons_self _ _, rfl, List.mem_cons_self _ _, List.mem_cons_self _ _⟩,
   ⟨by unfold RemovalsSucceed; decide,
    List.mem_cons_of_mem _ (List.mem_cons_of_mem _ (List.mem_cons_self _ _)),
    rfl, List.mem_cons_self _ _⟩⟩

end multigitter

namespace cmd

/-! ## The `run` command -/

theorem SplitN_two_of_cut (s a b : List Char) (sep : Char)
    (h : strings.cut sep s = some (a, b)) : strings.SplitN s sep 2 = [a, b] := by
  simp [strings.SplitN, h]

theorem SplitN_two_of_not_cut (s : List Char) (sep : Char)
    (h : strings.cut sep s = none) : strings.SplitN s sep 2 = [s] := by
  simp [strings.SplitN, h]

theorem cut_isSome_of_mem (sep : Char) (s : List Char) (h : sep ∈ s) :
    ∃ a b, strings.cut sep s = some (a, b) := by
  induction s with
  | nil => cases h
  | cons c cs ih =>
    by_cases hc : c = sep
    · exact ⟨[], cs, by simp [strings.cut, hc]⟩
    · have hm : sep ∈ cs := by
        rcases List.mem_cons.1 h with h | h
        · exact absurd h.symm hc
        · exact h
      obtain ⟨a, b, hab⟩ := ih hm
      exact ⟨c :: a, b, by simp [strings.cut, hc, hab]⟩

/-- C8: `run` does not complete the PR title/body defaulting for a multi-line
commit message: with token and organisation set, no `--pr-title`, no
`--pr-body` and a commit message that contains a newline, `run` panics on the
index `split[2]` of a two-element split instead of taking the text after the
first newline as the body. -/
theorem run_multiline_message_panics {VC : Type} (env : Env VC) (flag : Flags)
    (htoken : flag.token ≠ "") (horg : flag.org ≠ "")
    (htitle : flag.prTitle = "") (hbody : flag.prBody = "")
    (hmsg : '\n' ∈ flag.commitMessage.data) :
    run env flag = Outcome.panicked "index out of range [2] with length 2" := by
  obtain ⟨a, b, hab⟩ := cut_isSome_of_mem '\n' flag.commitMessage.data hmsg
  have hne : flag.commitMessage ≠ "" := by
    intro h; rw [h] at hmsg; simp at hmsg
  have htok : (if env.GITHUB_TOKEN ≠ "" then env.GITHUB_TOKEN else flag.token) ≠ "" := by
    split
    · assumption
    · exact htoken
  unfold run
  simp only [htoken, ne_eq, not_false_eq_true, if_true, htok, if_false, horg, hne, htitle,
    hbody, false_and, SplitN_two_of_cut _ _ _ _ hab, true_and]
  rfl

/-- C8 at the input of the claim: commit message `Title\nBody`, no title and no
body set. -/
theorem run_multiline_message_panics_witness :
    run exEnv { exFlags with commitMessage := "Title\nBody" }
      = Outcome.panicked "index out of range [2] with length 2" :=
  run_multiline_message_panics exEnv { exFlags with commitMessage := "Title\nBody" }
    (by decide) (by decide) rfl rfl (by decide)

theorem cut_none_of_not_mem (sep : Char) (s : List Char) (h : sep ∉ s) :
    strings.cut sep s = none := by
  induction s with
  | nil => rfl
  | cons c cs ih =>
    have hc : ¬ c = sep := fun hc => h (by simp [hc])
    have hm : sep ∉ cs := fun hm => h (List.mem_cons_of_mem _ hm)
    simp [strings.cut, hc, ih hm]

/-- What the title defaulting does where it completes: for a commit message of
one line and no `--pr-title`, the title is the whole message and the body is
left as given. -/
theorem run_single_line_message {VC : Type} (env : Env VC) (flag : Flags)
    (htoken : flag.token ≠ "") (horg : flag.org ≠ "")
    (hne : flag.commitMessage ≠ "") (htitle : flag.prTitle = "")
    (hmsg : '\n' ∉ flag.commitMessage.data) :
    run env flag
      = launch env flag (if env.GITHUB_TOKEN ≠ "" then env.GITHUB_TOKEN else flag.token)
          flag.commitMessage flag.commitMessage flag.prBody := by
  have htok : (if env.GITHUB_TOKEN ≠ "" then env.GITHUB_TOKEN else flag.token) ≠ "" := by
    split
    · assumption
    · exact htoken
  unfold run
  simp only [htoken, ne_eq, not_false_eq_true, if_true, htok, if_false, horg, hne, htitle,
    false_and, SplitN_two_of_not_cut _ _ (cut_none_of_not_mem _ _ hmsg), List.get?_cons_zero,
    List.length_singleton, OfNat.one_ne_ofNat, and_false]

/-- C10: `run` rejects every command line whose `--token` flag is empty, also
when `GITHUB_TOKEN` is set: the environment variable is read only when the flag
is already non-empty, so it prints the missing-token message and exits with
status 1. -/
theorem run_rejects_empty_token_flag {VC : Type} (env : Env VC) (flag : Flags)
    (h : flag.token = "") :
    run env flag = Outcome.exit 1
      "Either the --token flag or the GITHUB_TOKEN environment variable has to be set." := by
  unfold run
  simp [h]

/-- C10 at a failing input: `GITHUB_TOKEN=abc`, no `--token` flag, organisation
and title set; the command is rejected although the environment variable is
set. -/
theorem run_rejects_empty_token_flag_witness :
    run exEnvToken { exFlags with token := "", prTitle := "Title" }
      = Outcome.exit 1
          "Either the --token flag or the GITHUB_TOKEN environment variable has to be set." :=
  run_rejects_empty_token_flag exEnvToken { exFlags with token := "", prTitle := "Title" } rfl

theorem launch_runs {VC : Type} (env : Env VC) (flag : Flags)
    (token commitMessage prTitle prBody : String) (rn : Runner VC)
    (h : launch env flag token commitMessage prTitle prBody = Outcome.runs rn) :
    rn.CommitMessage = commitMessage ∧ rn.PullRequestTitle = prTitle ∧
      rn.PullRequestBody = prBody := by
  unfold launch at h
  split at h
  · cases h
  · split at h
    · cases h
    · cases h
      exact ⟨rfl, rfl, rfl⟩

/-- C9: with no `--commit-message`.  When `--pr-title` is non-empty, every
runner that `run` starts has as commit message the title followed by a newline
and the body when `--pr-body` is non-empty, and the title alone when it is
empty, with PR title and body exactly as given; and `run` does start that
runner when the token flag and the organisation are set and the working
directory and the client are obtained.  When `--pr-title` is empty too, `run`
never starts a runner: it exits with status 1, and with the token flag and
the organisation set the message printed is that a title or commit message
must be set. -/
theorem run_commit_message_default {VC : Type} (env : Env VC) (flag : Flags)
    (hmsg : flag.commitMessage = "") :
    (flag.prTitle ≠ "" →
      (∀ rn, run env flag = Outcome.runs rn →
        rn.CommitMessage
          = (if flag.prBody = "" then flag.prTitle
             else flag.prTitle ++ "\n" ++ flag.prBody) ∧
        rn.PullRequestTitle = flag.prTitle ∧
        rn.PullRequestBody = flag.prBody) ∧
      (flag.token ≠ "" → flag.org ≠ "" → ∀ wd vc, env.Getwd = Except.ok wd →
        env.githubNew (if env.GITHUB_TOKEN ≠ "" then env.GITHUB_TOKEN else flag.token)
          flag.ghBaseUrl = Except.ok vc →
        run env flag = Outcome.runs
          { ScriptPath := env.pathJoin wd flag.arg0,
            FeatureBranch := flag.branch,
            VersionController := vc,
            OrgName := flag.org,
            CommitMessage :=
              if flag.prBody = "" then flag.prTitle
              else flag.prTitle ++ "\n" ++ flag.prBody,
            PullRequestTitle := flag.prTitle,
            PullRequestBody := flag.prBody,
            Reviewers := flag.reviewers,
            MaxReviewers := flag.maxReviewers })) ∧
    (flag.prTitle = "" →
      (∃ msg, run env flag = Outcome.exit 1 msg) ∧
      (flag.token ≠ "" → flag.org ≠ "" →
        run env flag
          = Outcome.exit 1 "Pull request title or commit message must be set.")) := by
  have hrun : flag.prTitle ≠ "" → flag.token ≠ "" → flag.org ≠ "" → run env flag
      = launch env flag (if env.GITHUB_TOKEN ≠ "" then env.GITHUB_TOKEN else flag.token)
          (if flag.prBody = "" then flag.prTitle else flag.prTitle ++ "\n" ++ flag.prBody)
          flag.prTitle flag.prBody := by
    intro ht htoken horg
    have htok2 : ¬ (if env.GITHUB_TOKEN = "" then flag.token else env.GITHUB_TOKEN) = "" := by
      split
      · exact htoken
      · assumption
    unfold run
    simp only [htoken, ne_eq, not_false_eq_true, if_true, htok2, if_false, horg, hmsg, ht,
      and_false, ite_not, String.append_assoc]
  refine ⟨fun ht => ⟨?_, ?_⟩, fun ht => ⟨?_, ?_⟩⟩
  · intro rn hrn
    by_cases htoken : flag.token = ""
    · unfold run at hrn
      simp [htoken] at hrn
    · by_cases horg : flag.org = ""
      · unfold run at hrn
        simp only [horg, if_true] at hrn
        split_ifs at hrn
      · rw [hrun ht htoken horg] at hrn
        exact launch_runs env flag _ _ _ _ rn hrn
  · intro htoken horg wd vc hwd hvc
    rw [hrun ht htoken horg]
    unfold launch
    rw [hwd]
    simp only [hvc]
  · unfold run
    simp only [hmsg, ht, and_self, if_true]
    split_ifs <;> exact ⟨_, rfl⟩
  · intro htoken horg
    have htok : (if env.GITHUB_TOKEN ≠ "" then env.GITHUB_TOKEN else flag.token) ≠ "" := by
      split
      · assumption
      · exact htoken
    unfold run
    simp only [htoken, ne_eq, not_false_eq_true, if_true, htok, if_false, horg, hmsg, ht,
      and_self]

/-- C9 on examples: title `Title` and body `Body` give the commit message
`Title\nBody`, and no title and no commit message is rejected. -/
theorem run_commit_message_default_witness :
    run exEnv { exFlags with prTitle := "Title", prBody := "Body" }
      = Outcome.runs
          { ScriptPath := "/work/fix.sh",
            FeatureBranch := "multi-gitter-branch",
            VersionController := ("t0", ""),
            OrgName := "acme",
            CommitMessage := "Title\nBody",
            PullRequestTitle := "Title",
            PullRequestBody := "Body",
            Reviewers := [],
            MaxReviewers := 0 } ∧
    run exEnv exFlags
      = Outcome.exit 1 "Pull request title or commit message must be set." :=
  ⟨((run_commit_message_default exEnv { exFlags with prTitle := "Title", prBody := "Body" }
      rfl).1 (by decide)).2 (by decide) (by decide) "/work" ("t0", "") rfl rfl,
   ((run_commit_message_default exEnv exFlags rfl).2 rfl).2 (by decide) (by decide)⟩

end cmd

end MultiGitter
